import Mathlib

set_option maxRecDepth 100000

/-!
Verification of the openblack Pack-file reader/writer (components/pack/src/PackFile.cpp)
against its natural-language specification.

The development shallowly embeds the C++ code: byte streams become `List Nat`
(one `Nat` per byte), the block store becomes an insertion-ordered association
list keyed by the raw (NUL-trimmed) name bytes, machine integers become `Nat`
with explicit `% 2^32` / `% 2^64` where the C++ wraps, and every throwing
operation becomes an `Except PackError` value.

Modelling notes, applying throughout:
  * `PackFile.h` (struct layouts and the `_blocks` member declaration) is not
    part of the excerpt; where its contents matter they are modelled from the
    spec and marked as such in the doc comment of the definition.
  * An `std::istream` read that runs past the end of the underlying buffer
    copies the available bytes and sets the stream fail bit; every later read
    or seek on that stream is a no-op.  Destination buffers in the code are
    zero-filled `std::vector`s, so a short read leaves a zero tail; the model
    therefore zero-pads short reads.  The few destinations that are stack
    variables hold unspecified bytes on a short read in C++; the model takes
    them as zero as well (no claim depends on those corners).
  * `snprintf` into the reused 36-byte header buffer NUL-terminates the name
    but leaves the bytes after the NUL unspecified; the reader trims at the
    first NUL, so the model writes zero padding, which round-trips identically.
-/

/-- Bytes of an ASCII string literal, used for the fixed block names and magics. -/
def strBytes (s : String) : List Nat :=
  s.data.map Char.toNat

/-- The modulus of a 32-bit unsigned integer. -/
def U32 : Nat := 4294967296

/-- The modulus of a 64-bit unsigned integer (the C++ size_t). -/
def U64 : Nat := 18446744073709551616

/-- Little-endian 4-byte encoding of a (already wrapped) 32-bit value. -/
def u32le (v : Nat) : List Nat :=
  [v % 256, v / 256 % 256, v / 65536 % 256, v / 16777216 % 256]

/-- Byte at index `i`, zero past the end (matches reads into zero-filled buffers). -/
def byteAt (d : List Nat) (i : Nat) : Nat :=
  d.getD i 0

/-- Little-endian 32-bit read at byte offset `i` of `d`. -/
def readU32 (d : List Nat) (i : Nat) : Nat :=
  byteAt d i + 256 * byteAt d (i + 1) + 65536 * byteAt d (i + 2) + 16777216 * byteAt d (i + 3)

/-- Little-endian 16-bit read at byte offset `i` of `d`. -/
def readU16 (d : List Nat) (i : Nat) : Nat :=
  byteAt d i + 256 * byteAt d (i + 1)

/-- Slice of `n` bytes of `d` starting at `pos`, zero-padded to length `n` when the
stream runs short (destination vectors are zero-filled and a short read leaves the tail). -/
def byteSlice (d : List Nat) (pos n : Nat) : List Nat :=
  (d.drop pos).take n ++ List.replicate (n - (d.length - pos)) 0

/-- Result of `memcpy(&dest[pos], src.data(), src.size())` on a buffer `dest`. -/
def writeAt (dest : List Nat) (pos : Nat) (src : List Nat) : List Nat :=
  dest.take pos ++ src ++ dest.drop (pos + src.length)

/-- The 8-byte Pack magic "LiOnHeAd" (k_Magic). -/
def kMagic : List Nat := strBytes "LiOnHeAd"

/-- The 4-byte sub-block magic "MKJC" (k_BlockMagic). -/
def kBlockMagic : List Nat := strBytes "MKJC"

/-- Every distinct `Fail(...)` call site of PackFile.cpp, one constructor per message. -/
inductive PackError where
  /-- "File too small to be a valid Pack file." -/
  | fileTooSmall : PackError
  /-- "Unrecognized Pack header" -/
  | badMagic : PackError
  /-- "File too small to contain any blocks." -/
  | fileTooSmallForBlocks : PackError
  /-- "Duplicate block name: ..." in ReadBlocks. -/
  | duplicateBlockName (name : List Nat) : PackError
  /-- "File not evenly split into whole blocks." (the post-loop position check). -/
  | misalignedTrailer : PackError
  /-- "no INFO block in mesh pack" -/
  | noInfoBlock : PackError
  /-- "no Body block in anim pack" -/
  | noBodyBlock : PackError
  /-- "Unrecognized Body Block header" -/
  | badBodySubMagic : PackError
  /-- "no LHAudioBankSampleTable block in sad pack" -/
  | noAudioTableBlock : PackError
  /-- "Audio bank block cannot fit sample count: ..." -/
  | audioTableTooSmall : PackError
  /-- "There are no sound entries" -/
  | emptyAudioTable : PackError
  /-- "Cannot fit all ... sample headers" -/
  | audioSizeMismatch : PackError
  /-- "Required texture block ... missing." in ExtractTexturesFromBlock. -/
  | missingTextureBlock (name : List Nat) : PackError
  /-- "Texture block id is not the same as block id" -/
  | textureIdMismatch : PackError
  /-- "Duplicate texture extracted" -/
  | duplicateTexture : PackError
  /-- "Invalid DDS header sizes" -/
  | invalidDdsHeader : PackError
  /-- "Required texture block ... missing." in ExtractAnimationsFromBlock
  (the code reuses the texture wording for a missing Julien block). -/
  | missingAnimBlock (name : List Nat) : PackError
  /-- "no MESHES block in mesh pack" -/
  | noMeshesBlock : PackError
  /-- "Unrecognized Mesh Block header" -/
  | badMeshSubMagic : PackError
  /-- "No LHAudioWaveData block in sad pack" -/
  | noWaveDataBlock : PackError
  /-- "Sound sample offset points to beyond file" -/
  | sampleOffsetBeyondFile : PackError
  /-- "Sound sample size exceeds LHAudioWaveData size" -/
  | sampleSizeExceeds : PackError
  /-- "Pack file already has a ... block" in CreateRawBlock / CreateMeshBlock. -/
  | alreadyHasBlock (name : List Nat) : PackError
deriving DecidableEq, Repr

/-- The spec groups the two duplicate-name rejections (framing read and authoring
create) under one abstract DuplicateBlock error kind. -/
def PackError.isDuplicate : PackError → Bool
  | .duplicateBlockName _ => true
  | .alreadyHasBlock _ => true
  | _ => false

/-- Modelled from the spec: the `_blocks` member is declared in PackFile.h, which is
outside the excerpt.  Per the spec the store maps names to payloads and the write
pass iterates in the insertion order used when blocks were created, so the store is
an insertion-ordered association list keyed by the trimmed name bytes. -/
abbrev BlockStore := List (List Nat × List Nat)

/-- PackFile::HasBlock. -/
def hasBlock (st : BlockStore) (name : List Nat) : Bool :=
  (st.lookup name).isSome

/-- PackFile::GetBlock for a block known to exist (defaults to `[]` if absent;
the pipeline only calls it after a presence check). -/
def getBlockD (st : BlockStore) (name : List Nat) : List Nat :=
  (st.lookup name).getD []

/-- Map insertion `_blocks[name] = data` for a name not yet present. -/
def insertBlock (st : BlockStore) (name : List Nat) (data : List Nat) : BlockStore :=
  st ++ [(name, data)]

/-- Trimming of the 32-byte header name field: `std::string(header.blockName.data())`
stops at the first NUL.  (When the field holds no NUL at all the C++ reads past the
array, which is undefined; the model trims at the field boundary.) -/
def trimName (field : List Nat) : List Nat :=
  field.takeWhile (· ≠ 0)

/-- The block-reading loop of PackFile::ReadBlocks.  `pos` is the stream position
(`tellg()`).  Each iteration runs while `fsize - sizeof(PackBlockHeader) > tellg()`,
reads the 36-byte header, rejects duplicate trimmed names, then reads the declared
payload into a zero-filled vector.  A payload that overruns the file makes the read
partial and sets the fail bit; `tellg()` then returns `size_t(-1)`, which exceeds
`fsize - 36` for any representable file, so the loop exits and the post-loop check
`fsize < tellg()` fails with the misaligned-trailer error.  That path is folded into
the direct `.error .misalignedTrailer` below. -/
def readLoop (data : List Nat) (pos : Nat) (acc : BlockStore) : Except PackError BlockStore :=
  if h : data.length - 36 > pos then
    let name := trimName ((data.drop pos).take 32)
    if (acc.lookup name).isSome then
      .error (.duplicateBlockName name)
    else
      let size := readU32 data (pos + 32)
      if pos + 36 + size ≤ data.length then
        readLoop data (pos + 36 + size) (insertBlock acc name ((data.drop (pos + 36)).take size))
      else
        .error .misalignedTrailer
  else
    if data.length < pos then .error .misalignedTrailer else .ok acc
termination_by data.length - pos
decreasing_by omega

/-- PackFile::ReadBlocks on an in-memory buffer: the two size pre-checks, the magic
comparison, then the block loop from position 8. -/
def readBlocks (data : List Nat) : Except PackError BlockStore :=
  if data.length < 8 + 36 then .error .fileTooSmall
  else if data.take 8 ≠ kMagic then .error .badMagic
  else if data.length < 8 + 36 then .error .fileTooSmallForBlocks
  else readLoop data 8 []

/-- The 32-byte NUL-padded name field that `snprintf("%s", name.c_str())` produces:
the name bytes up to the first NUL, truncated to 31 bytes, then NUL padding (the
bytes after the terminating NUL are unspecified in C++ and zero here; the reader
trims at the first NUL either way). -/
def nameField (name : List Nat) : List Nat :=
  (name.takeWhile (· ≠ 0)).take 31 ++
    List.replicate (32 - ((name.takeWhile (· ≠ 0)).take 31).length) 0

/-- The 36 header bytes plus payload that PackFile::WriteBlocks emits for one block
(`blockSize` is the payload length cast to uint32_t). -/
def encBlock (b : List Nat × List Nat) : List Nat :=
  nameField b.1 ++ u32le (b.2.length % U32) ++ b.2

/-- PackFile::WriteBlocks: the magic followed by each stored block in store order. -/
def writeBlocks (blocks : BlockStore) : List Nat :=
  kMagic ++ (blocks.map encBlock).flatten

/-- One entry of the INFO lookup table: block id and an unknown field. -/
structure InfoLookupEntry where
  blockId : Nat
  unknown : Nat
deriving DecidableEq, Repr

/-- One entry of the Body lookup table: offset into the Body block and an unknown field. -/
structure BodyLookupEntry where
  offset : Nat
  unknown : Nat
deriving DecidableEq, Repr

/-- PackFile::ResolveInfoBlock: require the INFO block, read a u32 texture count,
then that many (blockId, unknown) u32 pairs (a short block leaves zero entries,
matching the zero-filled lookup vector after a partial read). -/
def resolveInfoBlock (st : BlockStore) : Except PackError (List InfoLookupEntry) :=
  if hasBlock st (strBytes "INFO") = false then .error .noInfoBlock
  else
    let d := getBlockD st (strBytes "INFO")
    let total := readU32 d 0
    .ok ((List.range total).map fun i => ⟨readU32 d (4 + 8 * i), readU32 d (8 + 8 * i)⟩)

/-- PackFile::ResolveBodyBlock: require the Body block, check the MKJC sub-magic,
read a u32 animation count, then that many (offset, unknown) u32 pairs. -/
def resolveBodyBlock (st : BlockStore) : Except PackError (List BodyLookupEntry) :=
  if hasBlock st (strBytes "Body") = false then .error .noBodyBlock
  else
    let d := getBlockD st (strBytes "Body")
    if d.take 4 ≠ kBlockMagic then .error .badBodySubMagic
    else
      let total := readU32 d 4
      .ok ((List.range total).map fun i => ⟨readU32 d (8 + 8 * i), readU32 d (12 + 8 * i)⟩)

/-- PackFile::ResolveAudioBankSampleTableBlock: require the block, require at least
4 bytes (`fsize < sizeof(uint32_t)`), read u16 sampleCount and u16 unknown, reject a
zero count, require the block to hold exactly `4 + 640 * sampleCount` bytes, then
decode the sample headers.  The exact field layout of AudioSampleHeader lives in
PackFile.h outside the excerpt, so a decoded header is modelled as its raw 640
bytes (the C++ reads the packed struct bytes verbatim). -/
def resolveAudioBankSampleTableBlock (st : BlockStore) : Except PackError (List (List Nat)) :=
  if hasBlock st (strBytes "LHAudioBankSampleTable") = false then .error .noAudioTableBlock
  else
    let d := getBlockD st (strBytes "LHAudioBankSampleTable")
    if d.length < 4 then .error .audioTableTooSmall
    else
      let sampleCount := readU16 d 0
      if sampleCount = 0 then .error .emptyAudioTable
      else if d.length ≠ 4 + 640 * sampleCount then .error .audioSizeMismatch
      else .ok ((List.range sampleCount).map fun i => byteSlice d (4 + 640 * i) 640)

/-- The sequential mesh-slicing loop of PackFile::ResolveMeshBlock.  The cursor
starts right after the offset table; mesh `i` is read sequentially (the code never
seeks), with byte count `meshOffsets[i+1] - meshOffsets[i]` (`data.size()` for the
last mesh) computed in size_t arithmetic, so it wraps modulo 2^64 when offsets
decrease.  A short read sets the sticky stream fail bit, after which every later
mesh stays all-zero. -/
def meshLoop (d : List Nat) : Nat → Bool → List Nat → List (List Nat)
  | _, _, [] => []
  | pos, fail, o :: rest =>
    let endv := match rest with
      | [] => d.length
      | o2 :: _ => o2
    let size := (endv + U64 - o) % U64
    let chunk := if fail then List.replicate size 0 else byteSlice d pos size
    chunk :: meshLoop d (pos + size) (fail || decide (pos + size > d.length)) rest

/-- PackFile::ResolveMeshBlock: require the MESHES block, check the MKJC sub-magic,
read u32 meshCount and the u32 offset table, then slice the meshes sequentially.
No offset validation of any kind is performed.  The fail bit is already set when
the block is too short to hold the offset table. -/
def resolveMeshBlock (st : BlockStore) : Except PackError (List (List Nat)) :=
  if hasBlock st (strBytes "MESHES") = false then .error .noMeshesBlock
  else
    let d := getBlockD st (strBytes "MESHES")
    if d.take 4 ≠ kBlockMagic then .error .badMeshSubMagic
    else
      let n := readU32 d 4
      let offs := (List.range n).map fun i => readU32 d (8 + 4 * i)
      .ok (meshLoop d (8 + 4 * n) (decide (d.length < 8 + 4 * n)) offs)

/-- Lowercase unpadded hexadecimal name bytes of a texture block id
(`snprintf("%x", item.blockId)`). -/
def hexName (id : Nat) : List Nat :=
  (Nat.toDigits 16 id).map Char.toNat

/-- The block-compressed size recomputation of PackFile::ExtractTexturesFromBlock
for a DDS header with `pitchOrLinearSize == 0`.  `format` is
`std::string(fourCC.data(), fourCC.size())`, a string of exactly 4 characters, and
is compared against the literals "DXT1" (4 characters), "BC1" and "BC4" (3
characters); the width/height arithmetic is in uint32. -/
def recomputePitchOrLinearSize (fourCC : List Nat) (width height : Nat) : Nat :=
  let format := fourCC
  let blockSize : Nat :=
    if format = strBytes "DXT1" ∨ format = strBytes "BC1" ∨ format = strBytes "BC4" then 8
    else 16
  ((width + 3) % U32 / 4 * ((height + 3) % U32 / 4) % U32 * blockSize) % U32

/-- The 16-byte texture block header (4 u32 fields). -/
structure G3DTextureHeader where
  size : Nat
  id : Nat
  ttype : Nat
  ddsFileSize : Nat
deriving DecidableEq, Repr

/-- One extracted texture: its block header, the DDS fields the code reads, and the
texel bytes. -/
structure PackTexture where
  header : G3DTextureHeader
  ddsWidth : Nat
  ddsHeight : Nat
  pitchOrLinearSize : Nat
  fourCC : List Nat
  texels : List Nat
deriving DecidableEq, Repr

/-- Modelled from the spec: the DdsHeader / DdsPixelFormat struct declarations live
in PackFile.h outside the excerpt; the spec calls them the standard DDS header
structs, whose sizes are 124 and 32 bytes with size at offset 0, height at 8,
width at 12, pitchOrLinearSize at 16, pixel-format size at 72 and fourCC at 80. -/
def kDdsHeaderSize : Nat := 124

/-- Modelled from the spec: size of the standard DDS pixel-format struct. -/
def kDdsPixelFormatSize : Nat := 32

/-- The per-entry loop of PackFile::ExtractTexturesFromBlock: format the hex block
key, require the block, read the 16-byte header and `header.size` DDS bytes, check
the id, reject duplicate extraction, validate the two DDS struct sizes, recompute
`pitchOrLinearSize` when zero, and slice the texel bytes. -/
def extractTexLoop (st : BlockStore) :
    List InfoLookupEntry → List (List Nat × PackTexture) →
    Except PackError (List (List Nat × PackTexture))
  | [], acc => .ok acc
  | item :: rest, acc =>
    let name := hexName item.blockId
    if hasBlock st name = false then .error (.missingTextureBlock name)
    else
      let d := getBlockD st name
      let header : G3DTextureHeader :=
        ⟨readU32 d 0, readU32 d 4, readU32 d 8, readU32 d 12⟩
      let dds := byteSlice d 16 header.size
      if header.id ≠ item.blockId then .error .textureIdMismatch
      else if (acc.lookup name).isSome then .error .duplicateTexture
      else
        let ddsSize := readU32 dds 0
        let height := readU32 dds 8
        let width := readU32 dds 12
        let pitch0 := readU32 dds 16
        let fmtSize := readU32 dds 72
        let fourCC := byteSlice dds 80 4
        if ddsSize ≠ kDdsHeaderSize ∨ fmtSize ≠ kDdsPixelFormatSize then
          .error .invalidDdsHeader
        else
          let pitch := if pitch0 = 0 then recomputePitchOrLinearSize fourCC width height
            else pitch0
          let texels := byteSlice dds 124 pitch
          extractTexLoop st rest
            (acc ++ [(name, ⟨header, width, height, pitch, fourCC, texels⟩)])

/-- PackFile::ExtractTexturesFromBlock over the resolved INFO lookup. -/
def extractTexturesFromBlock (st : BlockStore) (lookup : List InfoLookupEntry) :
    Except PackError (List (List Nat × PackTexture)) :=
  extractTexLoop st lookup []

/-- Decimal name bytes of the animation block `"Julien" + i` (`snprintf("Julien%d", i)`). -/
def julienName (i : Nat) : List Nat :=
  strBytes "Julien" ++ (Nat.toDigits 10 i).map Char.toNat

/-- The per-entry loop of PackFile::ExtractAnimationsFromBlock.  `i` is the running
index, `fail` the sticky fail bit of the shared Body stream: once a header read
overruns the Body block the fail bit is set and every later `seekg`/`read` is a
no-op, leaving that animation header all zero.  Each animation is the 0x54 header
bytes followed by the whole Julien block payload. -/
def animLoop (body : List Nat) (st : BlockStore) :
    Bool → Nat → List BodyLookupEntry → Except PackError (List (List Nat))
  | _, _, [] => .ok []
  | fail, i, entry :: rest =>
    let name := julienName i
    if hasBlock st name = false then .error (.missingAnimBlock name)
    else
      let julienData := getBlockD st name
      let header := if fail then List.replicate 84 0 else byteSlice body entry.offset 84
      let fail2 := fail || decide (entry.offset + 84 > body.length)
      (animLoop body st fail2 (i + 1) rest).map fun as => (header ++ julienData) :: as

/-- PackFile::ExtractAnimationsFromBlock over the resolved Body lookup (the code
fetches the Body block unconditionally; the pipeline guarantees it exists). -/
def extractAnimationsFromBlock (st : BlockStore) (lookup : List BodyLookupEntry) :
    Except PackError (List (List Nat)) :=
  animLoop (getBlockD st (strBytes "Body")) st false 0 lookup

/-- The per-sample loop of PackFile::ExtractSoundsFromBlock.  `sample.offset` and
`sample.size` sit at byte offsets 272 and 268 of the 640-byte header (per the
layout comment at the top of PackFile.cpp); the sum `offset + size` is uint32
arithmetic.  The shared stream fail bit is sticky, as for animations. -/
def soundLoop (d : List Nat) : Bool → List (List Nat) → Except PackError (List (List Nat))
  | _, [] => .ok []
  | fail, h :: rest =>
    let size := readU32 h 268
    let offset := readU32 h 272
    if offset > d.length then .error .sampleOffsetBeyondFile
    else if (offset + size) % U32 > d.length then .error .sampleSizeExceeds
    else
      let chunk := if fail then List.replicate size 0 else byteSlice d offset size
      (soundLoop d (fail || decide (offset + size > d.length)) rest).map
        fun ss => chunk :: ss

/-- PackFile::ExtractSoundsFromBlock: require LHAudioWaveData, then slice each
sample at (offset, size) from its header. -/
def extractSoundsFromBlock (st : BlockStore) (headers : List (List Nat)) :
    Except PackError (List (List Nat)) :=
  if hasBlock st (strBytes "LHAudioWaveData") = false then .error .noWaveDataBlock
  else soundLoop (getBlockD st (strBytes "LHAudioWaveData")) false headers

/-- The decoded collections a loaded PackFile holds. -/
structure PackState where
  blocks : BlockStore
  infoBlockLookup : List InfoLookupEntry
  bodyBlockLookup : List BodyLookupEntry
  audioSampleHeaders : List (List Nat)
  audioSampleData : List (List Nat)
  textures : List (List Nat × PackTexture)
  meshes : List (List Nat)
  animations : List (List Nat)
deriving DecidableEq, Repr

/-- The post-framing part of PackFile::ReadFile: the mesh-pack branch runs whenever
an INFO block is present, the anim-pack branch whenever a Body block is present,
the sound-pack branch whenever an LHAudioBankSampleTable block is present. -/
def processBlocks (st : BlockStore) : Except PackError PackState := do
  let (ilk, tex, ms) ←
    if hasBlock st (strBytes "INFO") then do
      let l ← resolveInfoBlock st
      let t ← extractTexturesFromBlock st l
      let m ← resolveMeshBlock st
      pure (l, t, m)
    else pure ([], [], [])
  let (blk, anims) ←
    if hasBlock st (strBytes "Body") then do
      let l ← resolveBodyBlock st
      let a ← extractAnimationsFromBlock st l
      pure (l, a)
    else pure ([], [])
  let (ahs, snds) ←
    if hasBlock st (strBytes "LHAudioBankSampleTable") then do
      let h ← resolveAudioBankSampleTableBlock st
      let s ← extractSoundsFromBlock st h
      pure (h, s)
    else pure ([], [])
  pure ⟨st, ilk, blk, ahs, snds, tex, ms, anims⟩

/-- PackFile::ReadFile on an in-memory buffer: framing read, then the conditional
resolution/extraction passes. -/
def readFile (data : List Nat) : Except PackError PackState := do
  let st ← readBlocks data
  processBlocks st

/-- PackFile::CreateRawBlock: reject a name that is already present, else store. -/
def createRawBlock (st : BlockStore) (name : List Nat) (data : List Nat) :
    Except PackError BlockStore :=
  if hasBlock st name then .error (.alreadyHasBlock name)
  else .ok (insertBlock st name data)

/-- Cumulative mesh offsets: the exact size_t `offset` values the synthesis loop
assigns, starting right after the magic, count and offset table. -/
def cumOffs (pos : Nat) : List Nat → List Nat
  | [] => []
  | sz :: rest => pos :: cumOffs (pos + sz) rest

/-- PackFile::CreateMeshBlock: reject an existing MESHES block; emit MKJC and the
uint32 mesh count; reserve the offset table; assign each mesh the running size_t
offset truncated to uint32 and store it little-endian (the table writes are
consecutive 4-byte slots, so they are modelled as one append); grow the buffer to
the final offset; then memcpy each non-empty mesh at its stored (wrapped) offset. -/
def createMeshBlock (st : BlockStore) (meshes : List (List Nat)) :
    Except PackError BlockStore :=
  if hasBlock st (strBytes "MESHES") then .error (.alreadyHasBlock (strBytes "MESHES"))
  else
    let n := meshes.length
    let nc := n % U32
    let c0 := kBlockMagic ++ u32le nc
    if n = 0 then .ok (insertBlock st (strBytes "MESHES") c0)
    else
      let offs := cumOffs (8 + 4 * nc) (meshes.map List.length)
      let c2 := c0 ++ (offs.map fun o => u32le (o % U32)).flatten
      let total := 8 + 4 * nc + (meshes.map List.length).sum
      let c3 := c2 ++ List.replicate (total - (8 + 4 * nc)) 0
      let c4 := (offs.zip meshes).foldl
        (fun c om => if om.2 = [] then c else writeAt c (om.1 % U32) om.2) c3
      .ok (insertBlock st (strBytes "MESHES") c4)

theorem length_u32le (v : Nat) : (u32le v).length = 4 := by
  simp [u32le]

theorem length_encBlock (b : List Nat × List Nat) :
    (encBlock b).length = 36 + b.2.length := by
  simp [encBlock, nameField, length_u32le]
  omega

theorem length_nameField (name : List Nat) : (nameField name).length = 32 := by
  simp only [nameField, List.length_append, List.length_replicate]
  have h : ((name.takeWhile (· ≠ 0)).take 31).length ≤ 31 := by
    simp [List.length_take]
  omega

theorem takeWhile_eq_self {name : List Nat} (hnz : ∀ b ∈ name, b ≠ 0) :
    name.takeWhile (· ≠ 0) = name := by
  induction name with
  | nil => rfl
  | cons a l ih =>
    have ha : a ≠ 0 := hnz a (by simp)
    have hl : ∀ b ∈ l, b ≠ 0 := fun b hb => hnz b (List.mem_cons_of_mem a hb)
    rw [List.takeWhile_cons, if_pos (by simpa using ha), ih hl]

theorem nameField_of_valid {name : List Nat} (hlen : name.length ≤ 31)
    (hnz : ∀ b ∈ name, b ≠ 0) :
    nameField name = name ++ List.replicate (32 - name.length) 0 := by
  simp only [nameField]
  rw [takeWhile_eq_self hnz, List.take_of_length_le hlen]

theorem trimName_nameField {name : List Nat} (hlen : name.length ≤ 31)
    (hnz : ∀ b ∈ name, b ≠ 0) :
    trimName (nameField name) = name := by
  rw [nameField_of_valid hlen hnz, trimName,
    List.takeWhile_append_of_pos (by intro a ha; simpa using hnz a ha)]
  cases h : 32 - name.length with
  | zero => omega
  | succ k => simp [List.replicate_succ, List.takeWhile_cons]

theorem byteAt_drop (d : List Nat) (pos k : Nat) :
    byteAt (d.drop pos) k = byteAt d (pos + k) := by
  simp [byteAt, List.getD_eq_getElem?_getD, List.getElem?_drop]

theorem readU32_drop (d : List Nat) (pos k : Nat) :
    readU32 (d.drop pos) k = readU32 d (pos + k) := by
  simp [readU32, byteAt_drop, Nat.add_assoc]

theorem byteAt_append_right (pre l : List Nat) (k : Nat) :
    byteAt (pre ++ l) (pre.length + k) = byteAt l k := by
  simp [byteAt, List.getD_eq_getElem?_getD,
    List.getElem?_append_right (Nat.le_add_right pre.length k)]

theorem readU32_append_u32le (pre suf : List Nat) (v : Nat) (hv : v < U32) :
    readU32 (pre ++ (u32le v ++ suf)) pre.length = v := by
  have h0 := byteAt_append_right pre (u32le v ++ suf) 0
  have h1 := byteAt_append_right pre (u32le v ++ suf) 1
  have h2 := byteAt_append_right pre (u32le v ++ suf) 2
  have h3 := byteAt_append_right pre (u32le v ++ suf) 3
  simp only [Nat.add_zero] at h0
  rw [readU32, h0, h1, h2, h3]
  simp only [u32le, byteAt, List.cons_append, List.getD_eq_getElem?_getD]
  simp only [List.getElem?_cons_zero, List.getElem?_cons_succ, Option.getD_some]
  simp only [U32] at hv
  omega

theorem readU32_append_u32le_at (pre suf : List Nat) (v k : Nat)
    (hk : pre.length = k) (hv : v < U32) :
    readU32 (pre ++ (u32le v ++ suf)) k = v := by
  subst hk
  exact readU32_append_u32le pre suf v hv

theorem readLoop_at_end (data : List Nat) (acc : BlockStore) :
    readLoop data data.length acc = .ok acc := by
  rw [readLoop]
  rw [dif_neg (by omega)]
  rw [if_neg (by omega)]

theorem readLoop_step (data : List Nat) (pos : Nat) (acc : BlockStore)
    (name payload tail : List Nat)
    (hdrop : data.drop pos = encBlock (name, payload) ++ tail)
    (hname : name.length ≤ 31) (hnz : ∀ b ∈ name, b ≠ 0)
    (hsize : payload.length < U32)
    (hfresh : acc.lookup name = none)
    (hlive : 0 < payload.length + tail.length) :
    readLoop data pos acc =
      readLoop data (pos + 36 + payload.length) (insertBlock acc name payload) := by
  have hstruct : data.drop pos =
      nameField name ++ (u32le (payload.length % U32) ++ (payload ++ tail)) := by
    simpa [encBlock, List.append_assoc] using hdrop
  have hlen : data.length - pos = 36 + payload.length + tail.length := by
    have h := congrArg List.length hstruct
    simp only [List.length_drop, List.length_append, length_nameField, length_u32le] at h
    omega
  have hcond : data.length - 36 > pos := by omega
  have hname32 : trimName ((data.drop pos).take 32) = name := by
    rw [hstruct, List.take_left' (length_nameField name), trimName_nameField hname hnz]
  have hsz : readU32 data (pos + 32) = payload.length := by
    rw [← readU32_drop, hstruct,
      readU32_append_u32le_at _ _ _ _ (length_nameField name)
        (Nat.mod_lt _ (by simp [U32]))]
    exact Nat.mod_eq_of_lt hsize
  have hslice : (data.drop (pos + 36)).take payload.length = payload := by
    have h36 : data.drop (pos + 36) = (data.drop pos).drop 36 := by
      rw [List.drop_drop]
    rw [h36, hstruct, ← List.append_assoc,
      List.drop_left' (by simp [length_nameField, length_u32le]),
      List.take_left']
    rfl
  have hle : pos + 36 + payload.length ≤ data.length := by omega
  rw [readLoop, dif_pos hcond]
  simp only [hname32, hfresh, Option.isSome_none, Bool.false_eq_true, if_false, hsz]
  rw [if_pos hle, hslice]

theorem readLoop_truncate (data : List Nat) (pos : Nat) (acc : BlockStore)
    (name rest : List Nat) (size : Nat)
    (hdrop : data.drop pos = nameField name ++ (u32le (size % U32) ++ rest))
    (hname : name.length ≤ 31) (hnz : ∀ b ∈ name, b ≠ 0)
    (hsize : size < U32)
    (hfresh : acc.lookup name = none)
    (hrest : rest ≠ [])
    (hshort : rest.length < size) :
    readLoop data pos acc = .error .misalignedTrailer := by
  have hlen : data.length - pos = 36 + rest.length := by
    have h := congrArg List.length hdrop
    simp only [List.length_drop, List.length_append, length_nameField, length_u32le] at h
    omega
  have hcond : data.length - 36 > pos := by
    have : 0 < rest.length := List.length_pos.mpr hrest
    omega
  have hname32 : trimName ((data.drop pos).take 32) = name := by
    rw [hdrop, List.take_left' (length_nameField name), trimName_nameField hname hnz]
  have hsz : readU32 data (pos + 32) = size := by
    rw [← readU32_drop, hdrop,
      readU32_append_u32le_at _ _ _ _ (length_nameField name)
        (Nat.mod_lt _ (by simp [U32]))]
    exact Nat.mod_eq_of_lt hsize
  rw [readLoop, dif_pos hcond]
  simp only [hname32, hfresh, Option.isSome_none, Bool.false_eq_true, if_false, hsz]
  rw [if_neg (by omega)]

theorem readLoop_dup (data : List Nat) (pos : Nat) (acc : BlockStore)
    (name rest : List Nat) (size : Nat)
    (hdrop : data.drop pos = nameField name ++ (u32le (size % U32) ++ rest))
    (hname : name.length ≤ 31) (hnz : ∀ b ∈ name, b ≠ 0)
    (hdup : (acc.lookup name).isSome = true)
    (hrest : rest ≠ []) :
    readLoop data pos acc = .error (.duplicateBlockName name) := by
  have hlen : data.length - pos = 36 + rest.length := by
    have h := congrArg List.length hdrop
    simp only [List.length_drop, List.length_append, length_nameField, length_u32le] at h
    omega
  have hcond : data.length - 36 > pos := by
    have : 0 < rest.length := List.length_pos.mpr hrest
    omega
  have hname32 : trimName ((data.drop pos).take 32) = name := by
    rw [hdrop, List.take_left' (length_nameField name), trimName_nameField hname hnz]
  rw [readLoop, dif_pos hcond]
  simp only [hname32, hdup, if_true]

theorem lookup_append_left_none {st : BlockStore} {m : List Nat}
    (h : st.lookup m = none) (rest : BlockStore) :
    (st ++ rest).lookup m = rest.lookup m := by
  induction st with
  | nil => rfl
  | cons x xs ih =>
    obtain ⟨k, v⟩ := x
    cases hx : (m == k) with
    | true =>
      simp only [List.lookup_cons, hx] at h
      exact absurd h (by simp)
    | false =>
      simp only [List.lookup_cons, hx] at h
      simp only [List.cons_append, List.lookup_cons, hx]
      exact ih h

theorem lookup_insert_self {st : BlockStore} {m : List Nat} (d : List Nat)
    (h : st.lookup m = none) :
    (insertBlock st m d).lookup m = some d := by
  rw [insertBlock, lookup_append_left_none h]
  simp [List.lookup_cons]

theorem lookup_insert_other {st : BlockStore} (n d : List Nat) {m : List Nat}
    (hne : m ≠ n) (h : st.lookup m = none) :
    (insertBlock st n d).lookup m = none := by
  rw [insertBlock, lookup_append_left_none h]
  have hbeq : (m == n) = false := by
    simp [hne]
  simp only [List.lookup_cons, hbeq]
  rfl

theorem readLoop_consume (blocks : BlockStore) :
    ∀ (data : List Nat) (pos : Nat) (acc : BlockStore) (tail : List Nat),
    data.drop pos = (blocks.map encBlock).flatten ++ tail →
    (∀ b ∈ blocks, b.1.length ≤ 31 ∧ (∀ x ∈ b.1, x ≠ 0) ∧ b.2.length < U32) →
    (blocks.map Prod.fst).Nodup →
    (∀ b ∈ blocks, acc.lookup b.1 = none) →
    36 < tail.length →
    readLoop data pos acc =
      readLoop data (pos + ((blocks.map encBlock).flatten).length) (acc ++ blocks) := by
  induction blocks with
  | nil =>
    intro data pos acc tail _ _ _ _ _
    simp
  | cons b bs ih =>
    intro data pos acc tail hdrop hvalid hnodup hfresh htail
    have hv := hvalid b (by simp)
    have hdrop2 : data.drop pos = encBlock (b.1, b.2) ++ ((bs.map encBlock).flatten ++ tail) := by
      simpa [List.append_assoc] using hdrop
    have hstep := readLoop_step data pos acc b.1 b.2 ((bs.map encBlock).flatten ++ tail)
      hdrop2 hv.1 hv.2.1 hv.2.2 (hfresh b (by simp))
      (by simp only [List.length_append]; omega)
    rw [hstep]
    have hdrop3 : data.drop (pos + 36 + b.2.length) = (bs.map encBlock).flatten ++ tail := by
      have h1 : data.drop (pos + 36 + b.2.length) = (data.drop pos).drop (36 + b.2.length) := by
        rw [List.drop_drop]
        ring_nf
      rw [h1, hdrop2, List.drop_left' (by rw [length_encBlock])]
    have hfresh2 : ∀ b2 ∈ bs, (insertBlock acc b.1 b.2).lookup b2.1 = none := by
      intro b2 hb2
      have hne : b2.1 ≠ b.1 := by
        intro hcontra
        have : b.1 ∈ bs.map Prod.fst := by
          rw [← hcontra]
          exact List.mem_map_of_mem Prod.fst hb2
        simp only [List.map_cons, List.nodup_cons] at hnodup
        exact hnodup.1 this
      exact lookup_insert_other b.1 b.2 hne (hfresh b2 (List.mem_cons_of_mem b hb2))
    have hnodup2 : (bs.map Prod.fst).Nodup := by
      simp only [List.map_cons, List.nodup_cons] at hnodup
      exact hnodup.2
    have := ih data (pos + 36 + b.2.length) (insertBlock acc b.1 b.2) tail hdrop3
      (fun b2 hb2 => hvalid b2 (List.mem_cons_of_mem b hb2)) hnodup2 hfresh2 htail
    rw [this]
    have heta : insertBlock acc b.1 b.2 = acc ++ [b] := rfl
    rw [heta, List.append_assoc]
    have hlen2 : pos + 36 + b.2.length + ((bs.map encBlock).flatten).length =
        pos + (((b :: bs).map encBlock).flatten).length := by
      simp only [List.map_cons, List.flatten_cons, List.length_append, length_encBlock]
      omega
    rw [hlen2]
    rfl

theorem lookup_eq_none_of_not_mem_keys {st : BlockStore} {m : List Nat}
    (h : m ∉ st.map Prod.fst) : st.lookup m = none := by
  induction st with
  | nil => rfl
  | cons x xs ih =>
    obtain ⟨k, v⟩ := x
    simp only [List.map_cons, List.mem_cons] at h
    push_neg at h
    have hbeq : (m == k) = false := by
      simp [h.1]
    simp only [List.lookup_cons, hbeq]
    exact ih h.2

theorem length_kMagic : kMagic.length = 8 := by decide

theorem readBlocks_writeBlocks_eq (blocks : BlockStore)
    (hvalid : ∀ b ∈ blocks, b.1.length ≤ 31 ∧ (∀ x ∈ b.1, x ≠ 0) ∧ b.2.length < U32)
    (hnodup : (blocks.map Prod.fst).Nodup)
    (hne : blocks ≠ [])
    (hlast : (blocks.getLast hne).2 ≠ []) :
    readBlocks (writeBlocks blocks) = .ok blocks := by
  set last := blocks.getLast hne with hlastdef
  have hdecomp : blocks = blocks.dropLast ++ [last] :=
    (List.dropLast_append_getLast hne).symm
  set F := (blocks.map encBlock).flatten with hF
  have hFsplit : F = ((blocks.dropLast.map encBlock).flatten) ++ encBlock last := by
    rw [hF]
    conv_lhs => rw [hdecomp]
    simp [List.map_append, List.flatten_append]
  have hlastlen : 0 < last.2.length := List.length_pos.mpr hlast
  have henclast : (encBlock last).length = 36 + last.2.length := length_encBlock last
  have hdata : writeBlocks blocks = kMagic ++ F := rfl
  have hdatalen : (writeBlocks blocks).length = 8 + F.length := by
    rw [hdata, List.length_append, length_kMagic]
  have hFlen : 37 ≤ F.length := by
    rw [hFsplit, List.length_append, henclast]
    omega
  rw [readBlocks]
  rw [if_neg (by omega)]
  rw [if_neg (by rw [hdata, List.take_left' length_kMagic]; exact fun h => h rfl)]
  rw [if_neg (by omega)]
  have hdrop8 : (writeBlocks blocks).drop 8 = F := by
    rw [hdata, List.drop_left' length_kMagic]
  have hdropF : (writeBlocks blocks).drop 8 =
      ((blocks.dropLast.map encBlock).flatten) ++ encBlock last := by
    rw [hdrop8, hFsplit]
  have hsub : ∀ b ∈ blocks.dropLast, b ∈ blocks :=
    fun b hb => (List.dropLast_sublist blocks).mem hb
  have hnodup2 : (blocks.dropLast.map Prod.fst).Nodup :=
    hnodup.sublist ((List.dropLast_sublist blocks).map Prod.fst)
  have hconsume := readLoop_consume blocks.dropLast (writeBlocks blocks) 8 [] (encBlock last)
    hdropF (fun b hb => hvalid b (hsub b hb)) hnodup2 (fun b _ => rfl)
    (by omega)
  rw [hconsume]
  have hnotmem : last.1 ∉ blocks.dropLast.map Prod.fst := by
    intro hmem
    have hnd : (blocks.dropLast.map Prod.fst ++ [last.1]).Nodup := by
      have : blocks.map Prod.fst = blocks.dropLast.map Prod.fst ++ [last.1] := by
        conv_lhs => rw [hdecomp]
        simp [List.map_append]
      rw [← this]
      exact hnodup
    rw [List.nodup_append] at hnd
    exact hnd.2.2 hmem (by simp)
  have hfreshlast : blocks.dropLast.lookup last.1 = none :=
    lookup_eq_none_of_not_mem_keys hnotmem
  have hposdrop : (writeBlocks blocks).drop (8 + ((blocks.dropLast.map encBlock).flatten).length) =
      encBlock (last.1, last.2) ++ [] := by
    have h1 : (writeBlocks blocks).drop (8 + ((blocks.dropLast.map encBlock).flatten).length) =
        ((writeBlocks blocks).drop 8).drop ((blocks.dropLast.map encBlock).flatten).length := by
      rw [List.drop_drop]
    rw [h1, hdropF, List.drop_left]
    simp
  have hvlast := hvalid last (by rw [hdecomp]; simp)
  have hstep := readLoop_step (writeBlocks blocks)
    (8 + ((blocks.dropLast.map encBlock).flatten).length) ([] ++ blocks.dropLast)
    last.1 last.2 [] (by simpa using hposdrop) hvlast.1 hvlast.2.1 hvlast.2.2
    (by simpa using hfreshlast) (by simpa using hlastlen)
  rw [hstep]
  have hposend : 8 + ((blocks.dropLast.map encBlock).flatten).length + 36 + last.2.length =
      (writeBlocks blocks).length := by
    rw [hdatalen, hFsplit, List.length_append, henclast]
    omega
  rw [hposend]
  rw [readLoop_at_end]
  have : insertBlock ([] ++ blocks.dropLast) last.1 last.2 = blocks := by
    rw [insertBlock]
    simp only [List.nil_append]
    conv_rhs => rw [hdecomp]
  rw [this]

/-- The byte ranges the spec ascribes to the meshes of a MESHES block: mesh `i`
spans the offsets `[offsets[i], offsets[i+1])`, the last mesh ending at the
payload length. -/
def meshSlices (offs : List Nat) (d : List Nat) : List (List Nat) :=
  (offs.zip (offs.drop 1 ++ [d.length])).map fun p => (d.drop p.1).take (p.2 - p.1)

/-- Monotonically non-decreasing offset table. -/
def sortedLE : List Nat → Bool
  | a :: b :: r => decide (a ≤ b) && sortedLE (b :: r)
  | _ => true

theorem meshLoop_nil (d : List Nat) (pos : Nat) (fail : Bool) :
    meshLoop d pos fail [] = [] := rfl

theorem meshLoop_one (d : List Nat) (pos : Nat) (fail : Bool) (o : Nat) :
    meshLoop d pos fail [o] =
      [if fail then List.replicate ((d.length + U64 - o) % U64) 0
       else byteSlice d pos ((d.length + U64 - o) % U64)] := rfl

theorem meshLoop_cons2 (d : List Nat) (pos : Nat) (fail : Bool) (o o2 : Nat) (r : List Nat) :
    meshLoop d pos fail (o :: o2 :: r) =
      (if fail then List.replicate ((o2 + U64 - o) % U64) 0
       else byteSlice d pos ((o2 + U64 - o) % U64)) ::
        meshLoop d (pos + (o2 + U64 - o) % U64)
          (fail || decide (pos + (o2 + U64 - o) % U64 > d.length)) (o2 :: r) := rfl

theorem meshLoop_slices (d : List Nat) (hd : d.length < U64) :
    ∀ (offs : List Nat) (pos : Nat), sortedLE offs = true →
    offs.all (· ≤ d.length) = true →
    (∀ o, offs.head? = some o → o = pos) →
    meshLoop d pos false offs = meshSlices offs d := by
  intro offs
  induction offs with
  | nil =>
    intro pos _ _ _
    simp [meshLoop_nil, meshSlices]
  | cons o rest ih =>
    intro pos hsort hall hhead
    have hpos : o = pos := hhead o rfl
    subst hpos
    have ho : o ≤ d.length := by
      have := List.all_eq_true.mp hall o (by simp)
      simpa using this
    cases rest with
    | nil =>
      have hsz : (d.length + U64 - o) % U64 = d.length - o := by
        have h1 : d.length + U64 - o = U64 + (d.length - o) := by omega
        rw [h1, Nat.add_mod_left, Nat.mod_eq_of_lt (by omega)]
      rw [meshLoop_one, hsz]
      rw [if_neg (by simp)]
      have hpad : d.length - o - (d.length - o) = 0 := by omega
      rw [byteSlice, hpad]
      simp [meshSlices]
    | cons o2 r =>
      have hsplit : sortedLE (o :: o2 :: r) = (decide (o ≤ o2) && sortedLE (o2 :: r)) := rfl
      rw [hsplit, Bool.and_eq_true] at hsort
      have ho2le : o ≤ o2 := by
        have h := hsort.1
        simpa using h
      have ho2 : o2 ≤ d.length := by
        have := List.all_eq_true.mp hall o2 (by simp)
        simpa using this
      have hsz : (o2 + U64 - o) % U64 = o2 - o := by
        have h1 : o2 + U64 - o = U64 + (o2 - o) := by omega
        rw [h1, Nat.add_mod_left, Nat.mod_eq_of_lt (by omega)]
      rw [meshLoop_cons2, hsz]
      rw [if_neg (by simp)]
      have hpad : o2 - o - (d.length - o) = 0 := by omega
      rw [byteSlice, hpad]
      have hfail : (false || decide (o + (o2 - o) > d.length)) = false := by
        simp only [Bool.false_or, decide_eq_false_iff_not]
        omega
      have hnext : o + (o2 - o) = o2 := by omega
      rw [hfail, hnext]
      have hall2 : (o2 :: r).all (· ≤ d.length) = true := by
        simp only [List.all_cons, Bool.and_eq_true] at hall ⊢
        exact hall.2
      have hrec := ih o2 hsort.2 hall2 (by intro o3 h3; cases h3; rfl)
      rw [hrec]
      simp [meshSlices]

theorem resolveMeshBlock_valid (st : BlockStore) (d : List Nat) (n : Nat) (offs : List Nat)
    (hget : st.lookup (strBytes "MESHES") = some d)
    (hmagic : d.take 4 = kBlockMagic)
    (hn : readU32 d 4 = n)
    (hoffs : (List.range n).map (fun i => readU32 d (8 + 4 * i)) = offs)
    (hsort : sortedLE offs = true)
    (hbound : offs.all (· ≤ d.length) = true)
    (hhead : offs.headD (8 + 4 * n) = 8 + 4 * n)
    (hlen : d.length < U64) :
    resolveMeshBlock st = .ok (meshSlices offs d) := by
  have hhas : hasBlock st (strBytes "MESHES") = true := by
    simp [hasBlock, hget]
  simp only [resolveMeshBlock, hhas, getBlockD, hget, Option.getD_some]
  rw [if_neg (by simp)]
  rw [if_neg (by rw [hmagic]; exact fun h => h rfl)]
  rw [hn, hoffs]
  cases offs with
  | nil =>
    rw [meshLoop_nil]
    simp [meshSlices]
  | cons o rest =>
    have ho : o = 8 + 4 * n := by
      simpa using hhead
    have hole : o ≤ d.length := by
      have := List.all_eq_true.mp hbound o (by simp)
      simpa using this
    have hfail : decide (d.length < 8 + 4 * n) = false := by
      simp only [decide_eq_false_iff_not]
      omega
    rw [hfail]
    exact congrArg Except.ok
      (meshLoop_slices d hlen (o :: rest) (8 + 4 * n) hsort hbound
        (by intro o3 h3; cases h3; omega))

theorem cumOffs_mem_bounds : ∀ (szs : List Nat) (pos : Nat) (o : Nat),
    o ∈ cumOffs pos szs → pos ≤ o ∧ o ≤ pos + szs.sum := by
  intro szs
  induction szs with
  | nil =>
    intro pos o ho
    simp [cumOffs] at ho
  | cons sz rest ih =>
    intro pos o ho
    simp only [cumOffs, List.mem_cons] at ho
    cases ho with
    | inl h =>
      subst h
      simp
    | inr h =>
      have := ih (pos + sz) o h
      simp only [List.sum_cons]
      omega

theorem cumOffs_length : ∀ (szs : List Nat) (pos : Nat), (cumOffs pos szs).length = szs.length := by
  intro szs
  induction szs with
  | nil => intro pos; rfl
  | cons sz rest ih =>
    intro pos
    simp [cumOffs, ih]

theorem readU32_table : ∀ (offs : List Nat) (pre suf : List Nat) (k : Nat),
    pre.length = k → (∀ o ∈ offs, o < U32) →
    (List.range offs.length).map
      (fun i => readU32 (pre ++ ((offs.map u32le).flatten ++ suf)) (k + 4 * i)) = offs := by
  intro offs
  induction offs with
  | nil =>
    intro pre suf k _ _
    simp
  | cons o rest ih =>
    intro pre suf k hk hlt
    have hlen : (o :: rest).length = rest.length + 1 := rfl
    rw [hlen, List.range_succ_eq_map, List.map_cons, List.map_map]
    have hdata : pre ++ (((o :: rest).map u32le).flatten ++ suf) =
        pre ++ (u32le o ++ ((rest.map u32le).flatten ++ suf)) := by
      simp [List.append_assoc]
    have hhead : readU32 (pre ++ (((o :: rest).map u32le).flatten ++ suf)) (k + 4 * 0) = o := by
      rw [hdata]
      have h0 : k + 4 * 0 = k := by omega
      rw [h0]
      exact readU32_append_u32le_at pre _ o k hk (hlt o (by simp))
    rw [hhead]
    have htail : ∀ i,
        readU32 (pre ++ (((o :: rest).map u32le).flatten ++ suf)) (k + 4 * (i + 1)) =
        readU32 ((pre ++ u32le o) ++ ((rest.map u32le).flatten ++ suf)) ((k + 4) + 4 * i) := by
      intro i
      rw [hdata, ← List.append_assoc]
      have : k + 4 * (i + 1) = (k + 4) + 4 * i := by omega
      rw [this]
    have hmapeq : (List.range rest.length).map
          ((fun i => readU32 (pre ++ (((o :: rest).map u32le).flatten ++ suf)) (k + 4 * i)) ∘
            (· + 1)) =
        (List.range rest.length).map
          (fun i => readU32 ((pre ++ u32le o) ++ ((rest.map u32le).flatten ++ suf))
            ((k + 4) + 4 * i)) := by
      apply List.map_congr_left
      intro i _
      exact htail i
    rw [hmapeq, ih (pre ++ u32le o) suf (k + 4)
      (by rw [List.length_append, hk, length_u32le])
      (fun o2 h2 => hlt o2 (List.mem_cons_of_mem o h2))]

theorem meshLoop_flatten (d : List Nat) (hd : d.length < U64) :
    ∀ (ms : List (List Nat)) (pos : Nat), d.drop pos = ms.flatten → pos ≤ d.length →
    meshLoop d pos false (cumOffs pos (ms.map List.length)) = ms := by
  intro ms
  induction ms with
  | nil =>
    intro pos _ _
    rfl
  | cons m rest ih =>
    intro pos hdrop hpos
    have hdl : d.length - pos = m.length + (rest.map List.length).sum := by
      have h := congrArg List.length hdrop
      simpa using h
    cases rest with
    | nil =>
      simp only [List.map_cons, List.map_nil, cumOffs]
      rw [meshLoop_one]
      rw [if_neg (by simp)]
      have hsz : (d.length + U64 - pos) % U64 = d.length - pos := by
        have h1 : d.length + U64 - pos = U64 + (d.length - pos) := by omega
        rw [h1, Nat.add_mod_left, Nat.mod_eq_of_lt (by omega)]
      rw [hsz, byteSlice]
      have hpad : d.length - pos - (d.length - pos) = 0 := by omega
      rw [hpad]
      have hm : (d.drop pos).take (d.length - pos) = m := by
        have hlen2 : (d.drop pos).length ≤ d.length - pos := by
          simp
        rw [List.take_of_length_le hlen2, hdrop]
        simp
      rw [hm]
      simp
    | cons m2 rest2 =>
      have hmlen : m.length ≤ d.length - pos := by
        simp only [List.map_cons, List.sum_cons] at hdl
        omega
      simp only [List.map_cons, cumOffs]
      rw [meshLoop_cons2]
      have hsz : (pos + m.length + U64 - pos) % U64 = m.length := by
        have h1 : pos + m.length + U64 - pos = U64 + m.length := by omega
        rw [h1, Nat.add_mod_left, Nat.mod_eq_of_lt (by omega)]
      rw [hsz]
      rw [if_neg (by simp)]
      rw [byteSlice]
      have hpad : m.length - (d.length - pos) = 0 := by omega
      rw [hpad]
      have hm : (d.drop pos).take m.length = m := by
        rw [hdrop, List.flatten_cons, List.take_left]
      rw [hm]
      have hfail : (false || decide (pos + m.length > d.length)) = false := by
        simp only [Bool.false_or, decide_eq_false_iff_not]
        omega
      rw [hfail]
      have hdrop2 : d.drop (pos + m.length) = ((m2 :: rest2).flatten) := by
        have h1 : d.drop (pos + m.length) = (d.drop pos).drop m.length := by
          rw [List.drop_drop]
        rw [h1, hdrop, List.flatten_cons, List.drop_left]
      have hrec := ih (pos + m.length) hdrop2 (by omega)
      simp only [List.map_cons, cumOffs] at hrec
      rw [hrec]
      simp

theorem foldWrite_flatten : ∀ (ms : List (List Nat)) (pre : List Nat),
    (∀ o ∈ cumOffs pre.length (ms.map List.length), o % U32 = o) →
    ((cumOffs pre.length (ms.map List.length)).zip ms).foldl
      (fun c om => if om.2 = [] then c else writeAt c (om.1 % U32) om.2)
      (pre ++ List.replicate ((ms.map List.length).sum) 0) = pre ++ ms.flatten := by
  intro ms
  induction ms with
  | nil =>
    intro pre _
    simp [cumOffs]
  | cons m rest ih =>
    intro pre hmod
    simp only [List.map_cons, cumOffs, List.zip_cons_cons, List.foldl_cons, List.sum_cons]
    by_cases hm : m = []
    · subst hm
      rw [if_pos rfl]
      have hmod2 : ∀ o ∈ cumOffs ((pre ++ ([] : List Nat)).length) (rest.map List.length),
          o % U32 = o := by
        intro o ho
        apply hmod o
        simp only [List.map_cons, List.length_nil, cumOffs, Nat.add_zero]
        simp only [List.length_append, List.length_nil, Nat.add_zero] at ho
        exact List.mem_cons_of_mem _ ho
      have hres := ih (pre ++ []) hmod2
      simp only [List.append_nil] at hres hmod2
      simp only [List.length_nil, Nat.add_zero, Nat.zero_add, List.flatten_cons,
        List.nil_append]
      exact hres
    · rw [if_neg hm]
      have hmodhead : pre.length % U32 = pre.length := by
        apply hmod pre.length
        simp [cumOffs]
      rw [writeAt, hmodhead]
      have htake : (pre ++ List.replicate (m.length + (rest.map List.length).sum) 0).take
          pre.length = pre := List.take_left pre _
      have hdrop : (pre ++ List.replicate (m.length + (rest.map List.length).sum) 0).drop
          (pre.length + m.length) = List.replicate ((rest.map List.length).sum) 0 := by
        rw [List.drop_append_eq_append_drop]
        have h1 : pre.drop (pre.length + m.length) = [] := by
          apply List.drop_eq_nil_of_le
          omega
        rw [h1, List.nil_append, List.drop_replicate]
        congr 1
        omega
      rw [htake, hdrop]
      have hmod2 : ∀ o ∈ cumOffs ((pre ++ m).length) (rest.map List.length),
          o % U32 = o := by
        intro o ho
        apply hmod o
        simp only [List.map_cons, cumOffs]
        apply List.mem_cons_of_mem
        simpa using ho
      have hres := ih (pre ++ m) hmod2
      simp only [List.length_append] at hres
      have hassoc : pre ++ m ++ List.replicate ((rest.map List.length).sum) 0 =
          (pre ++ m) ++ List.replicate ((rest.map List.length).sum) 0 := rfl
      rw [hassoc, hres]
      simp

theorem length_flatten_u32le : ∀ (offs : List Nat),
    ((offs.map u32le).flatten).length = 4 * offs.length := by
  intro offs
  induction offs with
  | nil => rfl
  | cons o rest ih =>
    simp only [List.map_cons, List.flatten_cons, List.length_append, length_u32le, ih,
      List.length_cons]
    omega

theorem createMeshBlock_contents (st : BlockStore) (meshes : List (List Nat))
    (hno : hasBlock st (strBytes "MESHES") = false)
    (hne : meshes ≠ [])
    (hbound : 8 + 4 * meshes.length + (meshes.map List.length).sum < U32) :
    createMeshBlock st meshes = .ok (insertBlock st (strBytes "MESHES")
      ((kBlockMagic ++ u32le meshes.length ++
        ((cumOffs (8 + 4 * meshes.length) (meshes.map List.length)).map u32le).flatten) ++
        meshes.flatten)) := by
  have hnlt : meshes.length < U32 := by
    simp only [U32] at hbound ⊢
    omega
  have hn : meshes.length % U32 = meshes.length := Nat.mod_eq_of_lt hnlt
  have hn0 : ¬(meshes.length = 0) := fun h => hne (List.length_eq_zero.mp h)
  simp only [createMeshBlock, hno]
  rw [if_neg (by simp)]
  rw [hn]
  rw [if_neg hn0]
  have htable : (cumOffs (8 + 4 * meshes.length) (meshes.map List.length)).map
        (fun o => u32le (o % U32)) =
      (cumOffs (8 + 4 * meshes.length) (meshes.map List.length)).map u32le := by
    apply List.map_congr_left
    intro o ho
    have hb := cumOffs_mem_bounds (meshes.map List.length) (8 + 4 * meshes.length) o ho
    have hmod : o % U32 = o := by
      apply Nat.mod_eq_of_lt
      simp only [U32] at hbound ⊢
      omega
    rw [hmod]
  rw [htable]
  have hsub : 8 + 4 * meshes.length + (meshes.map List.length).sum -
      (8 + 4 * meshes.length) = (meshes.map List.length).sum := by
    omega
  rw [hsub]
  have h4 : kBlockMagic.length = 4 := by decide
  have hpre : (kBlockMagic ++ u32le meshes.length ++
      ((cumOffs (8 + 4 * meshes.length) (meshes.map List.length)).map u32le).flatten).length =
      8 + 4 * meshes.length := by
    simp only [List.length_append, h4, length_u32le, length_flatten_u32le, cumOffs_length,
      List.length_map]
  have hmods : ∀ o ∈ cumOffs (8 + 4 * meshes.length) (meshes.map List.length),
      o % U32 = o := by
    intro o ho
    have hb := cumOffs_mem_bounds (meshes.map List.length) (8 + 4 * meshes.length) o ho
    apply Nat.mod_eq_of_lt
    simp only [U32] at hbound ⊢
    omega
  have hfold := foldWrite_flatten meshes
    (kBlockMagic ++ u32le meshes.length ++
      ((cumOffs (8 + 4 * meshes.length) (meshes.map List.length)).map u32le).flatten)
    (by rw [hpre]; exact hmods)
  rw [hpre] at hfold
  rw [hfold]

theorem createMesh_resolve_roundtrip (st : BlockStore) (meshes : List (List Nat))
    (hno : hasBlock st (strBytes "MESHES") = false)
    (hbound : 8 + 4 * meshes.length + (meshes.map List.length).sum < U32) :
    (createMeshBlock st meshes).bind resolveMeshBlock = .ok meshes := by
  have hnone : st.lookup (strBytes "MESHES") = none := by
    cases h : List.lookup (strBytes "MESHES") st with
    | none => rfl
    | some v =>
      rw [hasBlock, h] at hno
      simp at hno
  by_cases hne : meshes = []
  · subst hne
    simp only [createMeshBlock, hno]
    rw [if_neg (by simp)]
    simp only [List.length_nil, Nat.zero_mod]
    rw [if_pos trivial]
    simp only [Except.bind]
    have hget := lookup_insert_self (kBlockMagic ++ u32le 0) hnone
    have := resolveMeshBlock_valid (insertBlock st (strBytes "MESHES") (kBlockMagic ++ u32le 0))
      (kBlockMagic ++ u32le 0) 0 [] hget
      (List.take_left' (by decide))
      (by
        have h1 : kBlockMagic ++ u32le 0 = kBlockMagic ++ (u32le 0 ++ []) := by simp
        rw [h1]
        exact readU32_append_u32le_at kBlockMagic [] 0 4 (by decide) (by decide))
      (by simp) rfl rfl rfl (by decide)
    rw [this]
    simp [meshSlices]
  · rw [createMeshBlock_contents st meshes hno hne hbound]
    simp only [Except.bind]
    have hnlt : meshes.length < U32 := by
      simp only [U32] at hbound ⊢
      omega
    set table := ((cumOffs (8 + 4 * meshes.length) (meshes.map List.length)).map u32le).flatten
      with htabledef
    set D := (kBlockMagic ++ u32le meshes.length ++ table) ++ meshes.flatten with hDdef
    have hget := lookup_insert_self D hnone
    have h4 : kBlockMagic.length = 4 := by decide
    have hpre : (kBlockMagic ++ u32le meshes.length ++ table).length =
        8 + 4 * meshes.length := by
      simp only [htabledef, List.length_append, h4, length_u32le, length_flatten_u32le,
        cumOffs_length, List.length_map]
    have hDlen : D.length = 8 + 4 * meshes.length + (meshes.map List.length).sum := by
      simp only [hDdef, List.length_append, hpre]
      simp
    have hhas : hasBlock (insertBlock st (strBytes "MESHES") D) (strBytes "MESHES") = true := by
      simp [hasBlock, hget]
    simp only [resolveMeshBlock, hhas, getBlockD, hget, Option.getD_some]
    rw [if_neg (by simp)]
    have hDassoc : D = kBlockMagic ++ (u32le meshes.length ++ (table ++ meshes.flatten)) := by
      simp [hDdef, List.append_assoc]
    rw [if_neg (by
      rw [hDassoc, List.take_left' h4]
      exact fun h => h rfl)]
    have hn : readU32 D 4 = meshes.length := by
      rw [hDassoc]
      exact readU32_append_u32le_at kBlockMagic _ meshes.length 4 h4 hnlt
    rw [hn]
    have hoffs : (List.range meshes.length).map (fun i => readU32 D (8 + 4 * i)) =
        cumOffs (8 + 4 * meshes.length) (meshes.map List.length) := by
      have hD2 : D = (kBlockMagic ++ u32le meshes.length) ++ (table ++ meshes.flatten) := by
        simp [hDdef, List.append_assoc]
      have hk : (kBlockMagic ++ u32le meshes.length).length = 8 := by
        simp [h4, length_u32le]
      have hlen2 : meshes.length =
          (cumOffs (8 + 4 * meshes.length) (meshes.map List.length)).length := by
        rw [cumOffs_length, List.length_map]
      have hlt : ∀ o ∈ cumOffs (8 + 4 * meshes.length) (meshes.map List.length), o < U32 := by
        intro o ho
        have hb := cumOffs_mem_bounds (meshes.map List.length) (8 + 4 * meshes.length) o ho
        simp only [U32] at hbound ⊢
        omega
      conv_lhs => rw [hlen2]
      rw [hD2, htabledef]
      exact readU32_table (cumOffs (8 + 4 * meshes.length) (meshes.map List.length))
        (kBlockMagic ++ u32le meshes.length) meshes.flatten 8 hk hlt
    rw [hoffs]
    have hfail : decide (D.length < 8 + 4 * meshes.length) = false := by
      simp only [decide_eq_false_iff_not, hDlen]
      omega
    rw [hfail]
    have hflat := meshLoop_flatten D
      (by
        rw [hDlen]
        simp only [U32] at hbound
        simp only [U64]
        omega)
      meshes (8 + 4 * meshes.length)
      (by
        rw [hDdef, ← hpre, List.drop_left])
      (by rw [hDlen]; omega)
    rw [hflat]

/-- A mesh of 2^32 - 16 zero bytes: together with the 16-byte MESHES preamble it
makes the running size_t offset of the next mesh land exactly on 2^32. -/
def c9BigZeros : List Nat := List.replicate (U32 - 16) 0

/-- Mesh list whose second synthesized offset wraps to 0 when cast to uint32. -/
def c9Meshes : List (List Nat) := [c9BigZeros, [1]]

/-- The MESHES block buffer after the resize, before the memcpy loop. -/
def c9Base : List Nat :=
  (kBlockMagic ++ u32le 2 ++ (u32le 16 ++ (u32le 0 ++ []))) ++ List.replicate (U32 - 15) 0

theorem c9_create_eval : createMeshBlock [] c9Meshes =
    .ok [(strBytes "MESHES", writeAt (writeAt c9Base 16 c9BigZeros) 0 [1])] := by
  simp only [createMeshBlock]
  rw [if_neg (by decide)]
  have hlen2 : c9Meshes.length = 2 := rfl
  rw [hlen2]
  rw [if_neg (by decide)]
  have hmod2 : (2 : Nat) % U32 = 2 := by decide
  rw [hmod2]
  have hsizes : c9Meshes.map List.length = [U32 - 16, 1] := by
    simp [c9Meshes, c9BigZeros]
  rw [hsizes]
  have hcum : cumOffs (8 + 4 * 2) [U32 - 16, 1] = [16, U32] := by decide
  rw [hcum]
  have htable : ([16, U32].map fun o => u32le (o % U32)).flatten =
      u32le 16 ++ (u32le 0 ++ []) := by decide
  rw [htable]
  have hsum : ([U32 - 16, 1] : List Nat).sum = U32 - 15 := by decide
  rw [hsum]
  have hsub : 8 + 4 * 2 + (U32 - 15) - (8 + 4 * 2) = U32 - 15 := by decide
  rw [hsub]
  have hzip : ([16, U32].zip c9Meshes) = [(16, c9BigZeros), (U32, [1])] := rfl
  rw [hzip]
  simp only [List.foldl_cons, List.foldl_nil]
  rw [if_neg (by decide)]
  rw [if_neg (by decide)]
  have h16m : (16 : Nat) % U32 = 16 := by decide
  have hUm : U32 % U32 = 0 := Nat.mod_self U32
  rw [h16m, hUm]
  rfl

theorem c9_resolve_eval : resolveMeshBlock [(strBytes "MESHES",
    writeAt (writeAt c9Base 16 c9BigZeros) 0 [1])] = .error .badMeshSubMagic := by
  set X := writeAt c9Base 16 c9BigZeros with hXdef
  set C := writeAt X 0 [1] with hCdef
  have hget : List.lookup (strBytes "MESHES") [(strBytes "MESHES", C)] = some C := by
    simp [List.lookup_cons]
  have hhas : hasBlock [(strBytes "MESHES", C)] (strBytes "MESHES") = true := by
    simp [hasBlock, hget]
  have hC : C = 1 :: X.drop 1 := by
    simp [hCdef, writeAt]
  have hP16 : (kBlockMagic ++ u32le 2 ++ (u32le 16 ++ (u32le 0 ++ []))).length = 16 := by
    decide
  have hPtake : c9Base.take 16 = kBlockMagic ++ u32le 2 ++ (u32le 16 ++ (u32le 0 ++ [])) := by
    rw [c9Base]
    exact List.take_left' hP16
  have hXsplit : X = c9Base.take 16 ++ (c9BigZeros ++ c9Base.drop (16 + c9BigZeros.length)) := by
    simp [hXdef, writeAt, List.append_assoc]
  have hdrop1 : X.drop 1 = (c9Base.take 16).drop 1 ++
      (c9BigZeros ++ c9Base.drop (16 + c9BigZeros.length)) := by
    rw [hXsplit, List.drop_append_eq_append_drop]
    have h1 : 1 - (c9Base.take 16).length = 0 := by
      rw [hPtake, hP16]
    rw [h1, List.drop_zero]
  have htake3 : (X.drop 1).take 3 = [75, 74, 67] := by
    rw [hdrop1, List.take_append_eq_append_take]
    have h1 : ((c9Base.take 16).drop 1).take 3 = [75, 74, 67] := by
      rw [hPtake]
      decide
    have h2 : 3 - ((c9Base.take 16).drop 1).length = 0 := by
      rw [List.length_drop, hPtake, hP16]
    rw [h1, h2, List.take_zero, List.append_nil]
  have htake : C.take 4 = [1, 75, 74, 67] := by
    rw [hC]
    have h4 : (4 : Nat) = 3 + 1 := by omega
    rw [h4, List.take_succ_cons, htake3]
  simp only [resolveMeshBlock, hhas, getBlockD, hget, Option.getD_some]
  rw [if_neg (by simp)]
  rw [if_pos (by rw [htake]; decide)]

theorem animLoop_cons (body : List Nat) (st : BlockStore) (fail : Bool) (i : Nat)
    (entry : BodyLookupEntry) (rest : List BodyLookupEntry) :
    animLoop body st fail i (entry :: rest) =
      if hasBlock st (julienName i) = false then .error (.missingAnimBlock (julienName i))
      else ((animLoop body st (fail || decide (entry.offset + 84 > body.length)) (i + 1)
          rest).map
        fun as => ((if fail then List.replicate 84 0 else byteSlice body entry.offset 84) ++
          getBlockD st (julienName i)) :: as) := rfl

theorem animLoop_first_missing (body : List Nat) (st : BlockStore) :
    ∀ (lookup : List BodyLookupEntry) (i0 k : Nat) (fail : Bool),
    k < lookup.length →
    (∀ j, j < k → hasBlock st (julienName (i0 + j)) = true) →
    hasBlock st (julienName (i0 + k)) = false →
    animLoop body st fail i0 lookup = .error (.missingAnimBlock (julienName (i0 + k))) := by
  intro lookup
  induction lookup with
  | nil =>
    intro i0 k fail hk _ _
    simp at hk
  | cons entry rest ih =>
    intro i0 k fail hk hpresent hmiss
    rw [animLoop_cons]
    cases k with
    | zero =>
      rw [Nat.add_zero] at hmiss
      rw [if_pos hmiss, Nat.add_zero]
    | succ k2 =>
      have h0 : hasBlock st (julienName i0) = true := by
        have := hpresent 0 (by omega)
        simpa using this
      rw [if_neg (by rw [h0]; simp)]
      have hrec := ih (i0 + 1) k2 (fail || decide (entry.offset + 84 > body.length))
        (by simpa using hk)
        (by
          intro j hj
          have := hpresent (j + 1) (by omega)
          have harith : i0 + (j + 1) = i0 + 1 + j := by omega
          rw [harith] at this
          exact this)
        (by
          have harith : i0 + (k2 + 1) = i0 + 1 + k2 := by omega
          rw [harith] at hmiss
          exact hmiss)
      rw [hrec]
      have harith : i0 + 1 + k2 = i0 + (k2 + 1) := by omega
      rw [harith]
      rfl

/-- The animation list the spec describes for valid lookups: the 0x54-byte header
sliced from the Body block at each entry offset, followed by the Julien payload. -/
def animSpecFrom (body : List Nat) (st : BlockStore) : Nat → List BodyLookupEntry →
    List (List Nat)
  | _, [] => []
  | i, e :: rest =>
    ((body.drop e.offset).take 84 ++ getBlockD st (julienName i)) ::
      animSpecFrom body st (i + 1) rest

theorem animLoop_all_ok (body : List Nat) (st : BlockStore) :
    ∀ (lookup : List BodyLookupEntry) (i0 : Nat),
    (∀ j, j < lookup.length → hasBlock st (julienName (i0 + j)) = true) →
    (∀ e ∈ lookup, e.offset + 84 ≤ body.length) →
    animLoop body st false i0 lookup = .ok (animSpecFrom body st i0 lookup) := by
  intro lookup
  induction lookup with
  | nil =>
    intro i0 _ _
    rfl
  | cons entry rest ih =>
    intro i0 hpresent hrange
    rw [animLoop_cons]
    have h0 : hasBlock st (julienName i0) = true := by
      have := hpresent 0 (by simp)
      simpa using this
    rw [if_neg (by rw [h0]; simp)]
    have hoff := hrange entry (by simp)
    have hfail : (false || decide (entry.offset + 84 > body.length)) = false := by
      simp only [Bool.false_or, decide_eq_false_iff_not]
      omega
    rw [hfail]
    have hrec := ih (i0 + 1)
      (by
        intro j hj
        have := hpresent (j + 1) (by simp only [List.length_cons]; omega)
        have harith : i0 + (j + 1) = i0 + 1 + j := by omega
        rw [harith] at this
        exact this)
      (fun e he => hrange e (List.mem_cons_of_mem entry he))
    rw [hrec]
    simp only [Except.map]
    have hhdr : (if false = true then List.replicate 84 0
        else byteSlice body entry.offset 84) = (body.drop entry.offset).take 84 := by
      rw [if_neg (by simp), byteSlice]
      have hpad : 84 - (body.length - entry.offset) = 0 := by omega
      rw [hpad]
      simp
    rw [hhdr]
    rfl

theorem resolveAudio_spec (st : BlockStore) (d : List Nat)
    (hget : st.lookup (strBytes "LHAudioBankSampleTable") = some d)
    (hlen : 4 ≤ d.length) :
    (readU16 d 0 = 0 → resolveAudioBankSampleTableBlock st = .error .emptyAudioTable) ∧
    (readU16 d 0 ≠ 0 → d.length ≠ 4 + 640 * readU16 d 0 →
      resolveAudioBankSampleTableBlock st = .error .audioSizeMismatch) ∧
    (readU16 d 0 ≠ 0 → d.length = 4 + 640 * readU16 d 0 →
      (resolveAudioBankSampleTableBlock st).map List.length = .ok (readU16 d 0)) := by
  have hhas : hasBlock st (strBytes "LHAudioBankSampleTable") = true := by
    simp [hasBlock, hget]
  have hbase : resolveAudioBankSampleTableBlock st =
      (if readU16 d 0 = 0 then .error .emptyAudioTable
       else if d.length ≠ 4 + 640 * readU16 d 0 then .error .audioSizeMismatch
       else .ok ((List.range (readU16 d 0)).map fun i => byteSlice d (4 + 640 * i) 640)) := by
    simp only [resolveAudioBankSampleTableBlock, hhas, getBlockD, hget, Option.getD_some]
    rw [if_neg (by simp)]
    rw [if_neg (by omega)]
  refine ⟨fun h0 => ?_, fun h0 hsz => ?_, fun h0 hsz => ?_⟩
  · rw [hbase, if_pos h0]
  · rw [hbase, if_neg h0, if_pos hsz]
  · rw [hbase, if_neg h0, if_neg (by omega)]
    simp [Except.map]

theorem bindE_ok {e a b : Type} (x : a) (f : a → Except e b) :
    (Except.ok x >>= f) = f x := rfl

theorem bindE_error {e a b : Type} (err : e) (f : a → Except e b) :
    ((Except.error err : Except e a) >>= f) = .error err := rfl

theorem fmapE_error {e a b : Type} (err : e) (f : a → b) :
    (f <$> (Except.error err : Except e a)) = .error err := rfl

theorem readFile_info_without_meshes (data : List Nat) (st : BlockStore)
    (hrb : readBlocks data = .ok st)
    (hinfo : hasBlock st (strBytes "INFO") = true)
    (hmesh : hasBlock st (strBytes "MESHES") = false) :
    ∃ e, readFile data = .error e := by
  have hrm : resolveMeshBlock st = .error .noMeshesBlock := by
    simp only [resolveMeshBlock]
    rw [if_pos hmesh]
  obtain ⟨lk, hlk⟩ : ∃ lk, resolveInfoBlock st = .ok lk := by
    simp only [resolveInfoBlock]
    rw [if_neg (by rw [hinfo]; simp)]
    exact ⟨_, rfl⟩
  cases hx : extractTexturesFromBlock st lk with
  | error e =>
    refine ⟨e, ?_⟩
    simp [readFile, hrb, processBlocks, bindE_ok, bindE_error, fmapE_error, hinfo, hlk, hx, hrm]
  | ok t =>
    refine ⟨.noMeshesBlock, ?_⟩
    simp [readFile, hrb, processBlocks, bindE_ok, bindE_error, fmapE_error, hinfo, hlk, hx, hrm]

instance {e a : Type} [DecidableEq e] [DecidableEq a] : DecidableEq (Except e a) := fun x y =>
  match x, y with
  | .ok v, .ok w =>
    if h : v = w then .isTrue (by rw [h]) else .isFalse (fun hc => by cases hc; exact h rfl)
  | .error v, .error w =>
    if h : v = w then .isTrue (by rw [h]) else .isFalse (fun hc => by cases hc; exact h rfl)
  | .ok _, .error _ => .isFalse (fun hc => by cases hc)
  | .error _, .ok _ => .isFalse (fun hc => by cases hc)

/-!
The claim theorems.  Each claim of the specification audit gets exactly one
theorem below, with its witness or counterexample next to it.
-/

/-- C1 (amended).  Framing round-trip: for every insertion-ordered set of blocks in
the authoring state whose names are at most 31 NUL-free bytes, whose payloads fit a
u32, and whose block written last has a nonempty payload, writing the container and
reading it back reproduces the block store exactly (names and payloads
byte-identical, in store order).  The last-payload-nonempty hypothesis is forced by
the loop bound `fsize - sizeof(header) > tellg()`: a final block of declared size 0
occupies exactly 36 trailing bytes, which the loop never re-enters to read. -/
theorem C1_write_read_roundtrip (blocks : BlockStore)
    (hvalid : ∀ b ∈ blocks, b.1.length ≤ 31 ∧ (∀ x ∈ b.1, x ≠ 0) ∧ b.2.length < U32)
    (hnodup : (blocks.map Prod.fst).Nodup)
    (hne : blocks ≠ [])
    (hlast : (blocks.getLast hne).2 ≠ []) :
    readBlocks (writeBlocks blocks) = .ok blocks :=
  readBlocks_writeBlocks_eq blocks hvalid hnodup hne hlast

/-- C1 witness: a one-block store with a 1-byte payload round-trips. -/
theorem C1_write_read_roundtrip_witness :
    readBlocks (writeBlocks [(strBytes "A", [1])]) = .ok [(strBytes "A", [1])] :=
  C1_write_read_roundtrip [(strBytes "A", [1])]
    (by decide) (by decide) (by decide) (by decide)

/-- C1 counterexample: the claim as frozen quantifies over every authored block set,
but a single block with an empty payload is written as 44 bytes whose trailing
36-byte header the read loop never processes, so reading back yields an empty
store, not the original one. -/
theorem C1_write_read_counterexample :
    readBlocks (writeBlocks [(strBytes "A", [])]) = .ok [] ∧
    ([] : BlockStore) ≠ [(strBytes "A", [])] := by
  constructor
  · simp only [readBlocks]
    rw [if_neg (by decide), if_neg (by decide), if_neg (by decide)]
    rw [readLoop, dif_neg (by decide), if_neg (by decide)]
  · decide

/-- The 20 mesh payload bytes of the C2 end-to-end scenario. -/
def c2Pay : List Nat := (List.range 20).map (fun i => 100 + i)

/-- The MESHES block payload of the C2 scenario exactly as frozen: sub-magic MKJC,
meshCount 2, offset table [8, 20], then the 20 payload bytes. -/
def c2MeshBlock : List Nat := kBlockMagic ++ u32le 2 ++ u32le 8 ++ u32le 20 ++ c2Pay

/-- The C2 scenario buffer: magic, then the single MESHES block. -/
def c2Buffer : List Nat := kMagic ++ nameField (strBytes "MESHES") ++ u32le 36 ++ c2MeshBlock

/-- C2 counterexample: loading the frozen scenario buffer succeeds but produces
ZERO meshes, not two — PackFile::ReadFile only resolves the MESHES block when an
INFO block is present, and this buffer has none. -/
theorem C2_mesh_scenario_counterexample :
    (readFile c2Buffer).map (fun s => s.meshes) = .ok [] := by
  have hrb : readBlocks c2Buffer = .ok [(strBytes "MESHES", c2MeshBlock)] := by
    simp only [readBlocks]
    rw [if_neg (by decide), if_neg (by decide), if_neg (by decide)]
    rw [readLoop, dif_pos (by decide), if_neg (by decide), if_pos (by decide)]
    rw [readLoop, dif_neg (by decide), if_neg (by decide)]
    decide
  simp only [readFile, hrb]
  decide

/-- The MESHES block payload of the amended C2 scenario: the same 20 payload bytes,
with the offsets written as the absolute values [16, 28] that the code's sequential
slicing arithmetic expects. -/
def c2GoodMeshBlock : List Nat := kBlockMagic ++ u32le 2 ++ u32le 16 ++ u32le 28 ++ c2Pay

/-- The amended C2 buffer: an INFO block with textureCount 0 (so the mesh-pack
branch runs) followed by the MESHES block. -/
def c2GoodBuffer : List Nat := kMagic ++ nameField (strBytes "INFO") ++ u32le 4 ++ u32le 0 ++
  nameField (strBytes "MESHES") ++ u32le 36 ++ c2GoodMeshBlock

/-- C2 (amended).  A buffer with magic, an INFO block declaring zero textures, and
a MESHES block with sub-magic MKJC, meshCount 2, offsets [16, 28] and 20 bytes of
mesh payload loads successfully into exactly two meshes of 12 and 8 bytes: the
first 12 and last 8 of the payload bytes. -/
theorem C2_mesh_scenario :
    (readFile c2GoodBuffer).map (fun s => s.meshes) =
      .ok [c2Pay.take 12, c2Pay.drop 12] ∧
    (c2Pay.take 12).length = 12 ∧ (c2Pay.drop 12).length = 8 := by
  refine ⟨?_, by decide, by decide⟩
  have hrb : readBlocks c2GoodBuffer =
      .ok [(strBytes "INFO", u32le 0), (strBytes "MESHES", c2GoodMeshBlock)] := by
    simp only [readBlocks]
    rw [if_neg (by decide), if_neg (by decide), if_neg (by decide)]
    rw [readLoop, dif_pos (by decide), if_neg (by decide), if_pos (by decide)]
    rw [readLoop, dif_pos (by decide), if_neg (by decide), if_pos (by decide)]
    rw [readLoop, dif_neg (by decide), if_neg (by decide)]
    decide
  simp only [readFile, hrb]
  decide

/-- Discriminator for a successful resolver outcome. -/
def isOkE {e a : Type} : Except e a → Bool
  | .ok _ => true
  | .error _ => false

/-- C3 (amended).  The mesh resolver performs no offset validation and cannot fail
once the MESHES block exists and carries the MKJC sub-magic; for every offset
table that is non-decreasing, within the payload bounds, AND whose first offset
equals `8 + 4 * meshCount` (the end of the offset table, as the synthesis pass
produces), the resolver returns exactly the spec slices: mesh `i` spans
`[offsets[i], offsets[i+1])` and the last mesh ends at the payload length. -/
theorem C3_mesh_offsets (st : BlockStore) (d : List Nat) (n : Nat) (offs : List Nat)
    (hget : st.lookup (strBytes "MESHES") = some d)
    (hmagic : d.take 4 = kBlockMagic)
    (hn : readU32 d 4 = n)
    (hoffs : (List.range n).map (fun i => readU32 d (8 + 4 * i)) = offs)
    (hsort : sortedLE offs = true)
    (hbound : offs.all (· ≤ d.length) = true)
    (hhead : offs.headD (8 + 4 * n) = 8 + 4 * n)
    (hlen : d.length < U64) :
    resolveMeshBlock st = .ok (meshSlices offs d) :=
  resolveMeshBlock_valid st d n offs hget hmagic hn hoffs hsort hbound hhead hlen

/-- C3 witness: a one-mesh block whose single offset 12 equals the data-region
start; the resolver yields the 8 payload bytes as the single mesh. -/
theorem C3_mesh_offsets_witness :
    resolveMeshBlock [(strBytes "MESHES",
        kBlockMagic ++ u32le 1 ++ u32le 12 ++ [9, 8, 7, 6, 5, 4, 3, 2])] =
      .ok (meshSlices [12] (kBlockMagic ++ u32le 1 ++ u32le 12 ++ [9, 8, 7, 6, 5, 4, 3, 2])) :=
  C3_mesh_offsets _ _ 1 [12] (by decide) (by decide) (by decide) (by decide)
    (by decide) (by decide) (by decide) (by decide)

/-- C3 counterexample: (1) a MESHES block with the strictly decreasing offset table
[20, 8] resolves successfully — there is no InvalidMeshOffsets failure path in the
code at all; (2) a monotone, in-bounds table [0] that does not start at the data
region makes the resolver return 12 zero bytes (the cursor reads sequentially and
runs off the end), not the `[offsets[0], payloadLength)` slice the claim names. -/
theorem C3_mesh_offsets_counterexample :
    isOkE (resolveMeshBlock [(strBytes "MESHES",
      kBlockMagic ++ u32le 2 ++ u32le 20 ++ u32le 8 ++ List.replicate 20 7)]) = true ∧
    resolveMeshBlock [(strBytes "MESHES", kBlockMagic ++ u32le 1 ++ u32le 0)] =
      .ok [List.replicate 12 0] ∧
    List.replicate 12 0 ≠ kBlockMagic ++ u32le 1 ++ u32le 0 := by
  refine ⟨rfl, by decide, by decide⟩

/-- C4 (amended).  A block header that declares more payload bytes than remain in
the file makes the framing read fail — but through the post-loop position check,
with the same error as the misaligned-trailer condition ("File not evenly split
into whole blocks"), because the loop has no distinct truncated-block error; and
only when at least one payload byte follows the header, since a header lying in
the last 36 bytes of the file is never processed by the loop at all. -/
theorem C4_truncated_block (blocks : BlockStore) (name rest : List Nat) (size : Nat)
    (hvalid : ∀ b ∈ blocks, b.1.length ≤ 31 ∧ (∀ x ∈ b.1, x ≠ 0) ∧ b.2.length < U32)
    (hnodup : (blocks.map Prod.fst).Nodup)
    (hnlen : name.length ≤ 31) (hnz : ∀ x ∈ name, x ≠ 0)
    (hfresh : name ∉ blocks.map Prod.fst)
    (hsize : size < U32) (hshort : rest.length < size) (hrest : rest ≠ []) :
    readBlocks (kMagic ++ ((blocks.map encBlock).flatten ++
      (nameField name ++ (u32le (size % U32) ++ rest)))) = .error .misalignedTrailer := by
  set F := (blocks.map encBlock).flatten with hFdef
  set tail := nameField name ++ (u32le (size % U32) ++ rest) with htaildef
  set data := kMagic ++ (F ++ tail) with hdatadef
  have hrestpos : 0 < rest.length := List.length_pos.mpr hrest
  have htlen : tail.length = 36 + rest.length := by
    simp only [htaildef, List.length_append, length_nameField, length_u32le]
    omega
  have hdlen : data.length = 8 + (F.length + tail.length) := by
    simp [hdatadef, length_kMagic]
  simp only [readBlocks]
  rw [if_neg (by omega)]
  rw [if_neg (by
    rw [hdatadef, List.take_left' length_kMagic]
    exact fun h => h rfl)]
  rw [if_neg (by omega)]
  have hdrop8 : data.drop 8 = F ++ tail := by
    rw [hdatadef, List.drop_left' length_kMagic]
  have hconsume := readLoop_consume blocks data 8 [] tail
    (by rw [hdrop8, hFdef]) hvalid hnodup (fun b _ => rfl) (by omega)
  rw [hconsume]
  have hdropF : data.drop (8 + F.length) = nameField name ++ (u32le (size % U32) ++ rest) := by
    have h1 : data.drop (8 + F.length) = (data.drop 8).drop F.length := by
      rw [List.drop_drop]
    rw [h1, hdrop8, List.drop_left]
  exact readLoop_truncate data (8 + F.length) ([] ++ blocks) name rest size hdropF
    hnlen hnz hsize
    (by
      rw [List.nil_append]
      exact lookup_eq_none_of_not_mem_keys hfresh)
    hrest hshort

/-- C4 witness: after one well-formed block, a header declaring 5 payload bytes
with only 1 remaining fails with the trailer error. -/
theorem C4_truncated_block_witness :
    readBlocks (kMagic ++ (((([(strBytes "A", [7])] : BlockStore).map encBlock).flatten) ++
      (nameField (strBytes "B") ++ (u32le (5 % U32) ++ [1])))) =
      .error .misalignedTrailer :=
  C4_truncated_block [(strBytes "A", [7])] (strBytes "B") [1] 5
    (by decide) (by decide) (by decide) (by decide) (by decide) (by decide)
    (by decide) (by decide)

/-- C4 counterexample: the claim as frozen says EVERY oversized declaration fails,
with a TruncatedBlock kind distinct from other kinds.  (1) A header at exact
end-of-file declaring 5 payload bytes with 0 remaining is skipped silently and the
read SUCCEEDS.  (2) When the failure does occur it carries the same error as the
trailer check ("File not evenly split into whole blocks"), not a distinct kind. -/
theorem C4_truncated_block_counterexample :
    readBlocks (kMagic ++ nameField (strBytes "A") ++ u32le 5) = .ok [] ∧
    readBlocks (kMagic ++ nameField (strBytes "A") ++ u32le 5 ++ [1]) =
      .error .misalignedTrailer := by
  constructor
  · simp only [readBlocks]
    rw [if_neg (by decide), if_neg (by decide), if_neg (by decide)]
    rw [readLoop, dif_neg (by decide), if_neg (by decide)]
  · simp only [readBlocks]
    rw [if_neg (by decide), if_neg (by decide), if_neg (by decide)]
    rw [readLoop, dif_pos (by decide)]
    decide

/-- C5 (amended).  For an LHAudioBankSampleTable block of at least 4 bytes: a zero
leading u16 sampleCount fails with the empty-table error; a nonzero count whose
remaining bytes are not exactly sampleCount * 640 fails with the size-mismatch
error; otherwise exactly sampleCount 640-byte sample headers decode.  The 4-byte
guard is forced: blocks of 2 or 3 bytes fail the earlier "cannot fit sample count"
check, whatever their leading u16 says. -/
theorem C5_audio_table (st : BlockStore) (d : List Nat)
    (hget : st.lookup (strBytes "LHAudioBankSampleTable") = some d)
    (hlen : 4 ≤ d.length) :
    (readU16 d 0 = 0 → resolveAudioBankSampleTableBlock st = .error .emptyAudioTable) ∧
    (readU16 d 0 ≠ 0 → d.length ≠ 4 + 640 * readU16 d 0 →
      resolveAudioBankSampleTableBlock st = .error .audioSizeMismatch) ∧
    (readU16 d 0 ≠ 0 → d.length = 4 + 640 * readU16 d 0 →
      (resolveAudioBankSampleTableBlock st).map List.length = .ok (readU16 d 0)) :=
  resolveAudio_spec st d hget hlen

/-- C5 witness: a table of [0,0,0,0] fails empty; a table of 4 + 640 bytes with
sampleCount 1 decodes one header; a 5-byte table with sampleCount 1 mismatches. -/
theorem C5_audio_table_witness :
    resolveAudioBankSampleTableBlock [(strBytes "LHAudioBankSampleTable", [0, 0, 0, 0])] =
      .error .emptyAudioTable ∧
    (resolveAudioBankSampleTableBlock [(strBytes "LHAudioBankSampleTable",
      [1, 0, 0, 0] ++ List.replicate 640 7)]).map List.length = .ok 1 ∧
    resolveAudioBankSampleTableBlock [(strBytes "LHAudioBankSampleTable", [1, 0, 0, 0, 9])] =
      .error .audioSizeMismatch :=
  ⟨(C5_audio_table _ [0, 0, 0, 0] (by decide) (by decide)).1 (by decide),
   ((C5_audio_table _ ([1, 0, 0, 0] ++ List.replicate 640 7) (by decide) (by decide)).2.2
     (by decide) (by decide)).trans (by decide),
   (C5_audio_table _ [1, 0, 0, 0, 9] (by decide) (by decide)).2.1 (by decide) (by decide)⟩

/-- C5 counterexample: the frozen claim asserts EmptyAudioTable for every block
whose leading u16 is zero and SizeMismatch for every nonzero count with wrong
remainder, but the 2-byte blocks [0,0] and [1,0] both fail the earlier cannot-fit
check instead. -/
theorem C5_audio_table_counterexample :
    resolveAudioBankSampleTableBlock [(strBytes "LHAudioBankSampleTable", [0, 0])] =
      .error .audioTableTooSmall ∧
    resolveAudioBankSampleTableBlock [(strBytes "LHAudioBankSampleTable", [1, 0])] =
      .error .audioTableTooSmall := by
  refine ⟨by decide, by decide⟩

/-- C6 (code bug).  The DDS pitch recomputation is documented (in the code's own
comment and the spec) to use block size 8 for the DXT1, BC1 and BC4 four-character
codes, but the code compares the 4-character fourCC string against the 3-character
literals "BC1" and "BC4", which can never match, so every BC1 or BC4 texture gets
block size 16: at width=height=8 the code yields 64 where the documented intent
is 2*2*8=32.  DXT1 alone matches and yields 32. -/
theorem C6_dds_recompute_bug :
    recomputePitchOrLinearSize (strBytes "DXT1") 8 8 = 32 ∧
    recomputePitchOrLinearSize [66, 67, 49, 0] 8 8 = 64 ∧
    recomputePitchOrLinearSize [66, 67, 52, 0] 8 8 = 64 ∧
    recomputePitchOrLinearSize [66, 67, 49, 32] 8 8 = 64 := by
  refine ⟨by decide, by decide, by decide, by decide⟩

/-- C7 (amended).  Animation extraction fails with the missing-block error at the
first index whose Julien block is absent; when all Julien blocks exist and every
entry offset satisfies `offset + 0x54 <= length(Body)`, animation `i` is the 0x54
bytes of the Body block at `entry.offset` followed by the whole Julien payload.
No TruncatedBlock failure exists: an out-of-range offset silently yields a
zero-filled header (see the counterexample). -/
theorem C7_animation_extraction (st : BlockStore) (lookup : List BodyLookupEntry) :
    (∀ k, k < lookup.length →
      (∀ j, j < k → hasBlock st (julienName j) = true) →
      hasBlock st (julienName k) = false →
      extractAnimationsFromBlock st lookup = .error (.missingAnimBlock (julienName k))) ∧
    ((∀ j, j < lookup.length → hasBlock st (julienName j) = true) →
      (∀ e ∈ lookup, e.offset + 84 ≤ (getBlockD st (strBytes "Body")).length) →
      extractAnimationsFromBlock st lookup =
        .ok (animSpecFrom (getBlockD st (strBytes "Body")) st 0 lookup)) := by
  constructor
  · intro k hk hpres hmiss
    have h := animLoop_first_missing (getBlockD st (strBytes "Body")) st lookup 0 k false hk
      (by intro j hj; simpa using hpres j hj) (by simpa using hmiss)
    simpa [extractAnimationsFromBlock] using h
  · intro hpres hrange
    have h := animLoop_all_ok (getBlockD st (strBytes "Body")) st lookup 0
      (by intro j hj; simpa using hpres j hj) hrange
    simpa [extractAnimationsFromBlock] using h

/-- C7 witness: an 84-byte Body block, one entry at offset 0, and the Julien0 block
[9] extract to the Body bytes followed by [9]; a one-entry lookup with Julien0
absent fails with the missing-block error. -/
theorem C7_animation_extraction_witness :
    extractAnimationsFromBlock
      [(strBytes "Body", kBlockMagic ++ u32le 1 ++ u32le 0 ++ u32le 0 ++ List.replicate 68 3),
       (strBytes "Julien0", [9])] [⟨0, 0⟩] =
      .ok (animSpecFrom
        (getBlockD [(strBytes "Body",
            kBlockMagic ++ u32le 1 ++ u32le 0 ++ u32le 0 ++ List.replicate 68 3),
          (strBytes "Julien0", [9])] (strBytes "Body"))
        [(strBytes "Body", kBlockMagic ++ u32le 1 ++ u32le 0 ++ u32le 0 ++ List.replicate 68 3),
         (strBytes "Julien0", [9])] 0 [⟨0, 0⟩]) ∧
    extractAnimationsFromBlock [(strBytes "Body", [1, 2, 3])] [⟨0, 0⟩] =
      .error (.missingAnimBlock (julienName 0)) :=
  ⟨(C7_animation_extraction _ [⟨0, 0⟩]).2 (by decide) (by decide),
   (C7_animation_extraction [(strBytes "Body", [1, 2, 3])] [⟨0, 0⟩]).1 0 (by decide)
     (by intro j hj; omega) (by decide)⟩

/-- C7 counterexample: a Body lookup entry at offset 100 of a 16-byte Body block —
`100 + 0x54` far exceeds the block — does not fail with any truncation error; the
extraction succeeds and the animation header is 0x54 zero bytes (the seek lands
past the end, the read is a no-op on the zero-filled buffer). -/
theorem C7_animation_counterexample :
    (resolveBodyBlock [(strBytes "Body", kBlockMagic ++ u32le 1 ++ u32le 100 ++ u32le 0),
        (strBytes "Julien0", [5])]).bind
      (extractAnimationsFromBlock
        [(strBytes "Body", kBlockMagic ++ u32le 1 ++ u32le 100 ++ u32le 0),
         (strBytes "Julien0", [5])]) =
      .ok [List.replicate 84 0 ++ [5]] := by
  decide

theorem lookup_isSome_of_mem_keys {st : BlockStore} {m : List Nat}
    (h : m ∈ st.map Prod.fst) : (st.lookup m).isSome = true := by
  induction st with
  | nil => simp at h
  | cons x xs ih =>
    obtain ⟨k, v⟩ := x
    simp only [List.map_cons, List.mem_cons] at h
    by_cases hk : m = k
    · subst hk
      simp [List.lookup_cons]
    · have hbeq : (m == k) = false := by simp [hk]
      simp only [List.lookup_cons, hbeq]
      exact ih (h.resolve_left hk)

/-- C8 (confirmed).  Storing a block under an already-present name fails with the
duplicate-name rejection, in both places it can happen: CreateRawBlock on the
authoring side (message "Pack file already has a ... block") and the framing read
loop on a raw byte stream (message "Duplicate block name: ..."); the spec groups
both under the DuplicateBlock kind, and `PackError.isDuplicate` holds of both.  A
store under a fresh name never fails: CreateRawBlock returns the extended store. -/
theorem C8_duplicate_block :
    (∀ (st : BlockStore) (name d : List Nat), hasBlock st name = true →
      createRawBlock st name d = .error (.alreadyHasBlock name)) ∧
    (∀ (st : BlockStore) (name d : List Nat), hasBlock st name = false →
      createRawBlock st name d = .ok (insertBlock st name d)) ∧
    (∀ (blocks : BlockStore) (name rest : List Nat) (size : Nat),
      (∀ b ∈ blocks, b.1.length ≤ 31 ∧ (∀ x ∈ b.1, x ≠ 0) ∧ b.2.length < U32) →
      (blocks.map Prod.fst).Nodup →
      name.length ≤ 31 → (∀ x ∈ name, x ≠ 0) →
      name ∈ blocks.map Prod.fst → rest ≠ [] →
      readBlocks (kMagic ++ ((blocks.map encBlock).flatten ++
        (nameField name ++ (u32le (size % U32) ++ rest)))) =
        .error (.duplicateBlockName name)) ∧
    (∀ name : List Nat, (PackError.duplicateBlockName name).isDuplicate = true ∧
      (PackError.alreadyHasBlock name).isDuplicate = true) := by
  refine ⟨?_, ?_, ?_, ?_⟩
  · intro st name d h
    simp only [createRawBlock, h]
    rw [if_pos trivial]
  · intro st name d h
    simp only [createRawBlock, h]
    rw [if_neg (by simp)]
  · intro blocks name rest size hvalid hnodup hnlen hnz hmem hrest
    set F := (blocks.map encBlock).flatten with hFdef
    set tail := nameField name ++ (u32le (size % U32) ++ rest) with htaildef
    set data := kMagic ++ (F ++ tail) with hdatadef
    have hrestpos : 0 < rest.length := List.length_pos.mpr hrest
    have htlen : tail.length = 36 + rest.length := by
      simp only [htaildef, List.length_append, length_nameField, length_u32le]
      omega
    have hdlen : data.length = 8 + (F.length + tail.length) := by
      simp [hdatadef, length_kMagic]
    simp only [readBlocks]
    rw [if_neg (by omega)]
    rw [if_neg (by
      rw [hdatadef, List.take_left' length_kMagic]
      exact fun h => h rfl)]
    rw [if_neg (by omega)]
    have hdrop8 : data.drop 8 = F ++ tail := by
      rw [hdatadef, List.drop_left' length_kMagic]
    have hconsume := readLoop_consume blocks data 8 [] tail
      (by rw [hdrop8, hFdef]) hvalid hnodup (fun b _ => rfl) (by omega)
    rw [hconsume]
    have hdropF : data.drop (8 + F.length) =
        nameField name ++ (u32le (size % U32) ++ rest) := by
      have h1 : data.drop (8 + F.length) = (data.drop 8).drop F.length := by
        rw [List.drop_drop]
      rw [h1, hdrop8, List.drop_left]
    exact readLoop_dup data (8 + F.length) ([] ++ blocks) name rest size hdropF
      hnlen hnz
      (by
        rw [List.nil_append]
        exact lookup_isSome_of_mem_keys hmem)
      hrest
  · intro name
    exact ⟨rfl, rfl⟩

/-- C8 witness: creating "A" twice fails with the already-has rejection; creating
into an empty store succeeds; a stream repeating the name "A" fails with the
duplicate-name error. -/
theorem C8_duplicate_block_witness :
    createRawBlock [(strBytes "A", [1])] (strBytes "A") [2] =
      .error (.alreadyHasBlock (strBytes "A")) ∧
    createRawBlock [] (strBytes "A") [2] = .ok (insertBlock [] (strBytes "A") [2]) ∧
    readBlocks (kMagic ++ ((([(strBytes "A", [7])] : BlockStore).map encBlock).flatten ++
      (nameField (strBytes "A") ++ (u32le (0 % U32) ++ [9])))) =
      .error (.duplicateBlockName (strBytes "A")) :=
  ⟨C8_duplicate_block.1 [(strBytes "A", [1])] (strBytes "A") [2] (by decide),
   C8_duplicate_block.2.1 [] (strBytes "A") [2] (by decide),
   C8_duplicate_block.2.2.1 [(strBytes "A", [7])] (strBytes "A") [9] 0
     (by decide) (by decide) (by decide) (by decide) (by decide) (by decide)⟩

/-- C9 (amended).  For every mesh list accumulated with InsertMesh whose
synthesized MESHES block stays below 2^32 bytes (8-byte preamble + 4 bytes per
offset + payloads), creating the block and resolving it reproduces the same mesh
byte sequences in order: the synthesized offsets are absolute block offsets and
the resolver slices by their differences from its sequential cursor.  The size
bound is forced: the offsets are truncated to uint32 when stored (see the
counterexample). -/
theorem C9_mesh_roundtrip (st : BlockStore) (meshes : List (List Nat))
    (hno : hasBlock st (strBytes "MESHES") = false)
    (hbound : 8 + 4 * meshes.length + (meshes.map List.length).sum < U32) :
    (createMeshBlock st meshes).bind resolveMeshBlock = .ok meshes :=
  createMesh_resolve_roundtrip st meshes hno hbound

/-- C9 witness: two small meshes round-trip through the MESHES block. -/
theorem C9_mesh_roundtrip_witness :
    (createMeshBlock [] [[5, 6], [7]]).bind resolveMeshBlock = .ok [[5, 6], [7]] :=
  C9_mesh_roundtrip [] [[5, 6], [7]] (by decide) (by decide)

/-- C9 counterexample: with a first mesh of 2^32 - 16 bytes and a second of 1
byte, the second mesh's running offset is exactly 2^32, which the uint32 cast in
the synthesis loop wraps to 0; the memcpy then overwrites the MKJC sub-magic with
the second mesh's byte, and resolving the freshly created block fails with the
sub-magic error instead of reproducing the meshes. -/
theorem C9_mesh_roundtrip_counterexample :
    (createMeshBlock [] c9Meshes).bind resolveMeshBlock = .error .badMeshSubMagic := by
  rw [c9_create_eval]
  simp only [Except.bind]
  exact c9_resolve_eval

/-- C10 (confirmed).  For every buffer whose framing read succeeds with a store
that contains an INFO block but no MESHES block, the full load pass fails: the
mesh-pack branch of ReadFile runs whenever INFO is present, and its unconditional
mesh resolution rejects the missing MESHES block (when texture extraction has not
already failed first). -/
theorem C10_info_without_meshes (data : List Nat) (st : BlockStore)
    (hrb : readBlocks data = .ok st)
    (hinfo : hasBlock st (strBytes "INFO") = true)
    (hmesh : hasBlock st (strBytes "MESHES") = false) :
    ∃ e, readFile data = .error e :=
  readFile_info_without_meshes data st hrb hinfo hmesh

/-- The C10 witness buffer: magic plus one INFO block declaring zero textures. -/
def c10Buffer : List Nat := kMagic ++ nameField (strBytes "INFO") ++ u32le 4 ++ [0, 0, 0, 0]

/-- C10 witness: loading a pack holding only an INFO block fails. -/
theorem C10_info_without_meshes_witness : ∃ e, readFile c10Buffer = .error e :=
  C10_info_without_meshes c10Buffer [(strBytes "INFO", [0, 0, 0, 0])]
    (by
      simp only [readBlocks]
      rw [if_neg (by decide), if_neg (by decide), if_neg (by decide)]
      rw [readLoop, dif_pos (by decide), if_neg (by decide), if_pos (by decide)]
      rw [readLoop, dif_neg (by decide), if_neg (by decide)]
      decide)
    (by decide) (by decide)
